import Mathlib

/-!
Shallow embedding of the "Refractor" voxel ray tracer (src/src/main.rs and
src/src/cube.rs) and proofs about its specification claims.

Scalars are taken in an arbitrary linear ordered field `K` (instantiated at
`ℚ` for concrete evaluations); the exact float literals of the source
(`0.2`, `0.001`, `1e-6`) are idealised as the corresponding rationals.
Because the cube slab intersection deliberately divides by zero direction
components and relies on IEEE infinity/NaN propagation and on Rust's
NaN-ignoring `f32::min`/`f32::max`, those computations are carried out in an
explicit extended type `F K` with `fin x`, `pinf` (+infinity), `ninf`
(-infinity) and `nan`, whose operations follow the IEEE rules used by the
source (a single zero, treated as +0.0, since no computation in the claims
distinguishes the sign of zero: `1.0 / 0.0 = +inf`).
-/

namespace RT

/-- Extended scalar: finite value, plus infinity, minus infinity, or NaN. -/
inductive F (K : Type) where
  | fin (x : K)
  | pinf
  | ninf
  | nan
deriving DecidableEq

variable {K : Type} [LinearOrderedField K]

namespace F

/-- IEEE negation. -/
def fneg : F K → F K
  | fin x => fin (-x)
  | pinf => ninf
  | ninf => pinf
  | nan => nan

/-- IEEE addition (`+inf + -inf = NaN`). -/
def fadd : F K → F K → F K
  | nan, _ => nan
  | _, nan => nan
  | pinf, ninf => nan
  | ninf, pinf => nan
  | pinf, _ => pinf
  | _, pinf => pinf
  | ninf, _ => ninf
  | _, ninf => ninf
  | fin a, fin b => fin (a + b)

/-- IEEE subtraction, as `a + (-b)`. -/
def fsub (a b : F K) : F K := fadd a (fneg b)

/-- IEEE multiplication (`0 * inf = NaN`). -/
def fmul : F K → F K → F K
  | nan, _ => nan
  | _, nan => nan
  | fin a, fin b => fin (a * b)
  | fin a, pinf => if 0 < a then pinf else if a < 0 then ninf else nan
  | fin a, ninf => if 0 < a then ninf else if a < 0 then pinf else nan
  | pinf, fin b => if 0 < b then pinf else if b < 0 then ninf else nan
  | ninf, fin b => if 0 < b then ninf else if b < 0 then pinf else nan
  | pinf, pinf => pinf
  | pinf, ninf => ninf
  | ninf, pinf => ninf
  | ninf, ninf => pinf

/-- IEEE division with the single zero treated as +0.0
(`a / 0 = sign(a) * inf`, `0 / 0 = NaN`, `inf / inf = NaN`). -/
def fdiv : F K → F K → F K
  | nan, _ => nan
  | _, nan => nan
  | fin a, fin b =>
      if b = 0 then (if 0 < a then pinf else if a < 0 then ninf else nan)
      else fin (a / b)
  | fin _, pinf => fin 0
  | fin _, ninf => fin 0
  | pinf, fin b => if 0 ≤ b then pinf else ninf
  | ninf, fin b => if 0 ≤ b then ninf else pinf
  | pinf, pinf => nan
  | pinf, ninf => nan
  | ninf, pinf => nan
  | ninf, ninf => nan

/-- IEEE absolute value. -/
def fabs : F K → F K
  | fin x => fin |x|
  | pinf => pinf
  | ninf => pinf
  | nan => nan

/-- IEEE strict comparison `<` (false whenever an operand is NaN). -/
def flt : F K → F K → Bool
  | nan, _ => false
  | _, nan => false
  | fin a, fin b => decide (a < b)
  | fin _, pinf => true
  | pinf, _ => false
  | ninf, ninf => false
  | ninf, _ => true
  | _, ninf => false

/-- Recognizer for the NaN value. -/
def isNan : F K → Bool
  | nan => true
  | _ => false

/-- Rust `f32::min`: ignores a NaN operand, otherwise the smaller value. -/
def fmin (a b : F K) : F K :=
  if isNan a then b else if isNan b then a else if flt a b then a else b

/-- Rust `f32::max`: ignores a NaN operand, otherwise the larger value. -/
def fmax (a b : F K) : F K :=
  if isNan a then b else if isNan b then a else if flt a b then b else a

/-- Recognizer for finite values. -/
def isFinite : F K → Bool
  | fin _ => true
  | _ => false

end F

open F

/-- Finite 3-vector (nalgebra_glm `Vec3` holding finite floats). -/
structure Vec3 (K : Type) where
  x : K
  y : K
  z : K
deriving DecidableEq

/-- Extended 3-vector: components may be infinite or NaN. -/
structure FV3 (K : Type) where
  x : F K
  y : F K
  z : F K
deriving DecidableEq

namespace Vec3

/-- Componentwise subtraction of finite vectors. -/
def sub (a b : Vec3 K) : Vec3 K := ⟨a.x - b.x, a.y - b.y, a.z - b.z⟩

/-- Componentwise addition of finite vectors. -/
def add (a b : Vec3 K) : Vec3 K := ⟨a.x + b.x, a.y + b.y, a.z + b.z⟩

/-- Scaling of a finite vector by a finite scalar. -/
def smul (t : K) (v : Vec3 K) : Vec3 K := ⟨t * v.x, t * v.y, t * v.z⟩

/-- Negation of a finite vector. -/
def neg (v : Vec3 K) : Vec3 K := ⟨-v.x, -v.y, -v.z⟩

/-- Dot product of finite vectors. -/
def dot (a b : Vec3 K) : K := a.x * b.x + a.y * b.y + a.z * b.z

/-- Inclusion of finite vectors into extended vectors. -/
def toF (v : Vec3 K) : FV3 K := ⟨F.fin v.x, F.fin v.y, F.fin v.z⟩

end Vec3

namespace FV3

/-- Componentwise combination of two extended vectors. -/
def zip (f : F K → F K → F K) (a b : FV3 K) : FV3 K :=
  ⟨f a.x b.x, f a.y b.y, f a.z b.z⟩

/-- Componentwise extended subtraction. -/
def sub (a b : FV3 K) : FV3 K := zip fsub a b

/-- Componentwise extended addition. -/
def add (a b : FV3 K) : FV3 K := zip fadd a b

/-- Scaling of an extended vector by an extended scalar. -/
def smul (s : F K) (v : FV3 K) : FV3 K := ⟨fmul s v.x, fmul s v.y, fmul s v.z⟩

/-- Componentwise extended negation. -/
def neg (v : FV3 K) : FV3 K := ⟨fneg v.x, fneg v.y, fneg v.z⟩

/-- Extended dot product, summed left to right as nalgebra does. -/
def dot (a b : FV3 K) : F K :=
  fadd (fadd (fmul a.x b.x) (fmul a.y b.y)) (fmul a.z b.z)

/-- Maximum of the three components (`Vec3::max`), NaN-free in all uses. -/
def maxc (v : FV3 K) : F K := fmax (fmax v.x v.y) v.z

/-- Minimum of the three components (`Vec3::min`), NaN-free in all uses. -/
def minc (v : FV3 K) : F K := fmin (fmin v.x v.y) v.z

end FV3

/-- nalgebra `normalize`: divide by `sqrt (dot v v)`; the square root is a
parameter of the embedding (the source uses the f32 square root). -/
def normalizeF (sq : F K → F K) (v : FV3 K) : FV3 K :=
  let n := sq (FV3.dot v v)
  ⟨fdiv v.x n, fdiv v.y n, fdiv v.z n⟩

/-- Modelled from the spec: `Color` (color.rs is not under src/) is a triple
of floating-point channels supporting addition and scalar multiplication. -/
structure Color (K : Type) where
  r : F K
  g : F K
  b : F K
deriving DecidableEq

namespace Color

/-- Modelled from the spec: channel-wise color addition. -/
def add (c d : Color K) : Color K := ⟨fadd c.r d.r, fadd c.g d.g, fadd c.b d.b⟩

/-- Modelled from the spec: color scaled by a float (`Color * f32`). -/
def smul (c : Color K) (s : F K) : Color K := ⟨fmul c.r s, fmul c.g s, fmul c.b s⟩

end Color

/-- Modelled from the spec: `Material` (material.rs is not under src/) holds a
diffuse color, specular exponent, a 4-component albedo and a refractive
index; only `diffuse`, `specular`, `albedo[0]` and `albedo[1]` are consumed
by the core shader. -/
structure Material (K : Type) where
  diffuse : Color K
  specular : K
  albedo : Fin 4 → K
  refractive_index : K

/-- Modelled from the spec: an all-zero material used for the meaningless
fields of a non-hit `Intersect`. -/
def Material.zero : Material K :=
  ⟨⟨F.fin 0, F.fin 0, F.fin 0⟩, 0, fun _ => 0, 0⟩

/-- Modelled from the spec: `Intersect` (ray_intersect.rs is not under src/)
is the result of a ray test: hit flag, hit point, surface normal, ray
parameter `distance`, and a copy of the material. -/
structure Intersect (K : Type) where
  point : FV3 K
  normal : FV3 K
  distance : F K
  material : Material K
  is_intersecting : Bool

/-- Modelled from the spec: `Intersect::new` builds a hit result
(the hit flag is set). -/
def Intersect.new (p n : FV3 K) (d : F K) (m : Material K) : Intersect K :=
  ⟨p, n, d, m, true⟩

/-- Modelled from the spec: `Intersect::empty` is the non-hit result: the hit
flag is false and every other field is semantically meaningless. -/
def Intersect.empty : Intersect K :=
  ⟨⟨F.fin 0, F.fin 0, F.fin 0⟩, ⟨F.fin 0, F.fin 0, F.fin 0⟩, F.fin 0,
    Material.zero, false⟩

/-- Modelled from the spec: `Light` (light.rs is not under src/) is a point
light with position, color and intensity. -/
structure Light (K : Type) where
  position : Vec3 K
  color : Color K
  intensity : K

/-- Skybox (src/src/main.rs): day material, night material and the currently
selected material. -/
structure Skybox (K : Type) where
  day_material : Material K
  night_material : Material K
  current_material : Material K

/-- `Skybox::sample` (src/src/main.rs): ignores the direction and returns the
current material's diffuse color. -/
def Skybox.sample (s : Skybox K) (_direction : Vec3 K) : Color K :=
  s.current_material.diffuse

/-- `Cube` (src/src/cube.rs): center, uniform edge length and material. -/
structure Cube (K : Type) where
  center : Vec3 K
  size : K
  material : Material K

namespace Cube

/-- Lower corner of the box: `center - size/2` per axis (src/src/cube.rs). -/
def boxMin (c : Cube K) : Vec3 K :=
  Vec3.sub c.center ⟨c.size / 2, c.size / 2, c.size / 2⟩

/-- Upper corner of the box: `center + size/2` per axis (src/src/cube.rs). -/
def boxMax (c : Cube K) : Vec3 K :=
  Vec3.add c.center ⟨c.size / 2, c.size / 2, c.size / 2⟩

/-- `inv_dir = Vec3::new(1,1,1).component_div(ray_direction)`
(src/src/cube.rs): componentwise IEEE reciprocal of the direction. -/
def invDir (d : Vec3 K) : FV3 K :=
  FV3.zip fdiv (Vec3.toF ⟨1, 1, 1⟩) (Vec3.toF d)

/-- `t_min = (min - ray_origin).component_mul(&inv_dir)` (src/src/cube.rs). -/
def slabTMin (c : Cube K) (o d : Vec3 K) : FV3 K :=
  FV3.zip fmul (Vec3.toF (Vec3.sub (boxMin c) o)) (invDir d)

/-- `t_max = (max - ray_origin).component_mul(&inv_dir)` (src/src/cube.rs). -/
def slabTMax (c : Cube K) (o d : Vec3 K) : FV3 K :=
  FV3.zip fmul (Vec3.toF (Vec3.sub (boxMax c) o)) (invDir d)

/-- Per-axis slab entry times `t1 = zip_map min` (src/src/cube.rs). -/
def slabT1 (c : Cube K) (o d : Vec3 K) : FV3 K :=
  FV3.zip fmin (slabTMin c o d) (slabTMax c o d)

/-- Per-axis slab exit times `t2 = zip_map max` (src/src/cube.rs). -/
def slabT2 (c : Cube K) (o d : Vec3 K) : FV3 K :=
  FV3.zip fmax (slabTMin c o d) (slabTMax c o d)

/-- `t_near = t1.max()` (src/src/cube.rs): latest per-axis entry time. -/
def tNear (c : Cube K) (o d : Vec3 K) : F K := FV3.maxc (slabT1 c o d)

/-- `t_far = t2.min()` (src/src/cube.rs): earliest per-axis exit time. -/
def tFar (c : Cube K) (o d : Vec3 K) : F K := FV3.minc (slabT2 c o d)

/-- `Cube::compute_normal` (src/src/cube.rs): fixed-priority face test with
bias 0.001 and a `-z` default. -/
def compute_normal (c : Cube K) (point : FV3 K) : FV3 K :=
  let local_point := FV3.sub point (Vec3.toF c.center)
  let bias : K := 1 / 1000
  if flt (fabs (fsub local_point.x (F.fin (c.size / 2)))) (F.fin bias) then
    ⟨F.fin 1, F.fin 0, F.fin 0⟩
  else if flt (fabs (fadd local_point.x (F.fin (c.size / 2)))) (F.fin bias) then
    ⟨F.fin (-1), F.fin 0, F.fin 0⟩
  else if flt (fabs (fsub local_point.y (F.fin (c.size / 2)))) (F.fin bias) then
    ⟨F.fin 0, F.fin 1, F.fin 0⟩
  else if flt (fabs (fadd local_point.y (F.fin (c.size / 2)))) (F.fin bias) then
    ⟨F.fin 0, F.fin (-1), F.fin 0⟩
  else if flt (fabs (fsub local_point.z (F.fin (c.size / 2)))) (F.fin bias) then
    ⟨F.fin 0, F.fin 0, F.fin 1⟩
  else
    ⟨F.fin 0, F.fin 0, F.fin (-1)⟩

/-- `Cube::ray_intersect` (src/src/cube.rs): slab method; empty on
`t_near > t_far || t_far < 0`, else a hit at `origin + direction * t_near`. -/
def ray_intersect (c : Cube K) (ray_origin ray_direction : Vec3 K) :
    Intersect K :=
  if flt (tFar c ray_origin ray_direction) (tNear c ray_origin ray_direction)
      || flt (tFar c ray_origin ray_direction) (F.fin 0) then
    Intersect.empty
  else
    let point := FV3.add (Vec3.toF ray_origin)
      (FV3.smul (tNear c ray_origin ray_direction) (Vec3.toF ray_direction))
    Intersect.new point (compute_normal c point)
      (tNear c ray_origin ray_direction) c.material

end Cube

/-- `Plane` (src/src/main.rs): a point on the plane, a normal, a material. -/
structure Plane (K : Type) where
  point : Vec3 K
  normal : Vec3 K
  material : Material K

/-- `Plane::ray_intersect` (src/src/main.rs): plane equation with a
near-parallel cutoff `1e-6`, `t >= 0`, the finite-tile test
`point.x.abs() <= 1 && point.z.abs() <= 1` on the world hit point, and a
normal flipped to oppose the incident ray. -/
def Plane.ray_intersect (p : Plane K) (ray_origin ray_direction : Vec3 K) :
    Intersect K :=
  let denom := Vec3.dot p.normal ray_direction
  if |denom| > 1 / 1000000 then
    let p0l0 := Vec3.sub p.point ray_origin
    let t := Vec3.dot p0l0 p.normal / denom
    if t ≥ 0 then
      let point := Vec3.add ray_origin (Vec3.smul t ray_direction)
      if |point.x| ≤ 1 ∧ |point.z| ≤ 1 then
        let normal := if denom < 0 then p.normal else Vec3.neg p.normal
        Intersect.new (Vec3.toF point) (Vec3.toF normal) (F.fin t) p.material
      else Intersect.empty
    else Intersect.empty
  else Intersect.empty

/-- `reflect` (src/src/main.rs): `incident - 2 * dot(incident, normal) * normal`. -/
def reflect (incident normal : FV3 K) : FV3 K :=
  FV3.sub incident (FV3.smul (fmul (F.fin 2) (FV3.dot incident normal)) normal)

/-- `cast_ray` (src/src/main.rs): intersect the object; on a miss return the
skybox sample, otherwise the Phong-style local color. The f32 square root
and `powf` are parameters `sq` and `pf` of the embedding; `depth` is the
unused recursion-depth argument of the source. -/
def castRay (sq : F K → F K) (pf : F K → F K → F K)
    (ray_origin ray_direction : Vec3 K)
    (object : Vec3 K → Vec3 K → Intersect K)
    (light : Light K) (_depth : Nat) (skybox : Skybox K) : Color K :=
  let intersect := object ray_origin ray_direction
  if intersect.is_intersecting then
    let light_dir := normalizeF sq
      (FV3.sub (Vec3.toF light.position) intersect.point)
    let view_dir := normalizeF sq
      (FV3.sub (Vec3.toF ray_origin) intersect.point)
    let reflect_dir := normalizeF sq
      (reflect (FV3.neg light_dir) intersect.normal)
    let diffuse_intensity :=
      fmin (fmax (FV3.dot intersect.normal light_dir) (F.fin 0)) (F.fin 1)
    let diffuse := Color.smul
      (Color.smul intersect.material.diffuse (F.fin (intersect.material.albedo 0)))
      diffuse_intensity
    let specular_intensity :=
      pf (fmax (FV3.dot view_dir reflect_dir) (F.fin 0))
        (F.fin intersect.material.specular)
    let specular := Color.smul
      (Color.smul light.color (F.fin (intersect.material.albedo 1)))
      specular_intensity
    let ambient := Color.smul intersect.material.diffuse (F.fin (1 / 5))
    Color.add (Color.add diffuse specular) ambient
  else
    Skybox.sample skybox ray_direction

/-- One step of the cube scan of `render` (src/src/main.rs lines 87-93):
state is `(nearest_intersection, pixel_color)`; a cube strictly closer than
the recorded nearest distance overwrites both. -/
def renderStep (sq : F K → F K) (pf : F K → F K → F K)
    (eye dir : Vec3 K) (light : Light K) (skybox : Skybox K)
    (st : F K × Color K) (cube : Cube K) : F K × Color K :=
  let intersect := Cube.ray_intersect cube eye dir
  if intersect.is_intersecting && flt intersect.distance st.1 then
    (intersect.distance, castRay sq pf eye dir (Cube.ray_intersect cube) light 0 skybox)
  else st

/-- Per-pixel body of `render` (src/src/main.rs lines 79-96): the default
color is the shaded plane if the plane is hit, else the skybox sample; then
every cube is scanned with `nearest_intersection` starting at `f32::INFINITY`. -/
def renderPixel (sq : F K → F K) (pf : F K → F K → F K)
    (plane : Plane K) (cubes : List (Cube K)) (eye dir : Vec3 K)
    (light : Light K) (skybox : Skybox K) : Color K :=
  let base :=
    if (Plane.ray_intersect plane eye dir).is_intersecting then
      castRay sq pf eye dir (Plane.ray_intersect plane) light 0 skybox
    else
      Skybox.sample skybox dir
  (cubes.foldl (renderStep sq pf eye dir light skybox) (F.pinf, base)).2

/-- Point of the ray `origin + t * direction` at parameter `t`. -/
def rayAt (o d : Vec3 K) (t : K) : Vec3 K := Vec3.add o (Vec3.smul t d)

/-- Membership of a finite point in the closed box of a cube. -/
def inBox (c : Cube K) (q : Vec3 K) : Prop :=
  c.boxMin.x ≤ q.x ∧ q.x ≤ c.boxMax.x ∧
  c.boxMin.y ≤ q.y ∧ q.y ≤ c.boxMax.y ∧
  c.boxMin.z ≤ q.z ∧ q.z ≤ c.boxMax.z

instance (c : Cube K) (q : Vec3 K) : Decidable (inBox c q) := by
  unfold inBox; infer_instance

/-- Membership of a finite point in the open interior of a cube's box. -/
def strictlyInside (c : Cube K) (q : Vec3 K) : Prop :=
  c.boxMin.x < q.x ∧ q.x < c.boxMax.x ∧
  c.boxMin.y < q.y ∧ q.y < c.boxMax.y ∧
  c.boxMin.z < q.z ∧ q.z < c.boxMax.z

/-- Ray parameter solved by `Plane::ray_intersect`:
`t = dot(point - origin, normal) / dot(normal, direction)`. -/
def planeT (p : Plane K) (o d : Vec3 K) : K :=
  Vec3.dot (Vec3.sub p.point o) p.normal / Vec3.dot p.normal d

/-- Spec wording for the shader (section 4.4): the unit vector from the hit
point to the light position. -/
def specLightDir (sq : F K → F K) (i : Intersect K) (light : Light K) : FV3 K :=
  normalizeF sq (FV3.sub (Vec3.toF light.position) i.point)

/-- Spec wording: the unit vector from the hit point to the ray origin. -/
def specViewDir (sq : F K → F K) (o : Vec3 K) (i : Intersect K) : FV3 K :=
  normalizeF sq (FV3.sub (Vec3.toF o) i.point)

/-- Spec wording: the unit reflection of `-light_dir` about the normal. -/
def specReflectDir (sq : F K → F K) (i : Intersect K) (light : Light K) : FV3 K :=
  normalizeF sq (reflect (FV3.neg (specLightDir sq i light)) i.normal)

/-- Spec wording: `clamp(x, 0, 1)`. -/
def clamp01 (x : F K) : F K := fmin (fmax x (F.fin 0)) (F.fin 1)

/-- Spec wording: `clamp(x, 0, infinity)` (only the lower bound). -/
def clampLo (x : F K) : F K := fmax x (F.fin 0)

/-- Spec wording: diffuse term
`material.diffuse * albedo[0] * clamp(dot(normal, light_dir), 0, 1)`. -/
def specDiffuseTerm (sq : F K → F K) (i : Intersect K) (light : Light K) :
    Color K :=
  Color.smul (Color.smul i.material.diffuse (F.fin (i.material.albedo 0)))
    (clamp01 (FV3.dot i.normal (specLightDir sq i light)))

/-- Spec wording: specular term
`light.color * albedo[1] * clamp(dot(view_dir, reflect_dir), 0, inf) ^ specular`. -/
def specSpecularTerm (sq : F K → F K) (pf : F K → F K → F K)
    (o : Vec3 K) (i : Intersect K) (light : Light K) : Color K :=
  Color.smul (Color.smul light.color (F.fin (i.material.albedo 1)))
    (pf (clampLo (FV3.dot (specViewDir sq o i) (specReflectDir sq i light)))
      (F.fin i.material.specular))

/-- Spec wording: ambient term `material.diffuse * 0.2`. -/
def specAmbientTerm (i : Intersect K) : Color K :=
  Color.smul i.material.diffuse (F.fin (1 / 5))

/-- Per-axis slab entry time as a scalar expression (x-axis shape shared by
all three axes of `slabT1`). -/
def axis1 (mn mx o d : K) : F K :=
  fmin (fmul (F.fin (mn - o)) (fdiv (F.fin 1) (F.fin d)))
    (fmul (F.fin (mx - o)) (fdiv (F.fin 1) (F.fin d)))

/-- Per-axis slab exit time as a scalar expression. -/
def axis2 (mn mx o d : K) : F K :=
  fmax (fmul (F.fin (mn - o)) (fdiv (F.fin 1) (F.fin d)))
    (fmul (F.fin (mx - o)) (fdiv (F.fin 1) (F.fin d)))

/-- IEEE non-strict order as a proposition: `x` is not greater than `y`
(for non-NaN operands this is the usual `x <= y`). -/
def FLe (x y : F K) : Prop := flt y x = false

/-- Concrete material over `ℚ` (the day-sky material of the scene) used for
concrete evaluations. -/
def wMaterial : Material ℚ :=
  ⟨⟨F.fin 135, F.fin 206, F.fin 235⟩, 50, fun i => if i = 0 then 1 else 0, 1⟩

/-- Concrete cube over `ℚ` used for concrete evaluations. -/
def wCube : Cube ℚ := ⟨⟨0, 0, 0⟩, 2, wMaterial⟩

/-- Concrete plane over `ℚ` (the scene's ground plane) used for concrete
evaluations. -/
def wPlane : Plane ℚ := ⟨⟨0, 0, 0⟩, ⟨0, 1, 0⟩, wMaterial⟩

/-- Concrete light over `ℚ` (the scene's day light) used for concrete
evaluations. -/
def wLight : Light ℚ := ⟨⟨5, 5, 5⟩, ⟨F.fin 255, F.fin 255, F.fin 255⟩, 1⟩

/-- Concrete skybox over `ℚ` used for concrete evaluations. -/
def wSkybox : Skybox ℚ := ⟨wMaterial, wMaterial, wMaterial⟩

/-- Placeholder square-root parameter for concrete evaluations (the claims
settled at concrete inputs do not depend on the square root's values). -/
def wsq : F ℚ → F ℚ := fun x => x

/-- Placeholder power-function parameter for concrete evaluations. -/
def wpf : F ℚ → F ℚ → F ℚ := fun x _ => x

/-- Concrete always-hitting intersectable object over `ℚ` used for concrete
evaluations of the shader. -/
def wObject : Vec3 ℚ → Vec3 ℚ → Intersect ℚ :=
  fun _ _ =>
    Intersect.new (Vec3.toF ⟨0, 0, 1⟩) (Vec3.toF ⟨0, 0, 1⟩) (F.fin 4) wMaterial

/-- Concrete tiny cube (size `0.001`) over `ℚ` used for concrete
evaluations. -/
def wCubeTiny : Cube ℚ := ⟨⟨0, 0, 0⟩, 1 / 1000, wMaterial⟩

/-- Concrete cube far away from the witness rays, used for concrete
evaluations of the render scan. -/
def wCubeFar : Cube ℚ := ⟨⟨10, 10, 10⟩, 2, wMaterial⟩

/-- Concrete plane away from the world origin, used for concrete
evaluations. -/
def wPlaneFar : Plane ℚ := ⟨⟨5, 0, 5⟩, ⟨0, 1, 0⟩, wMaterial⟩

instance (c : Cube K) (q : Vec3 K) : Decidable (strictlyInside c q) := by
  unfold strictlyInside; infer_instance

namespace F

@[simp] lemma fneg_fin (a : K) : fneg (fin a) = fin (-a) := rfl

@[simp] lemma fadd_fin_fin (a b : K) : fadd (fin a) (fin b) = fin (a + b) := rfl

@[simp] lemma fadd_fin_pinf (a : K) : fadd (fin a) pinf = pinf := rfl

@[simp] lemma fadd_fin_ninf (a : K) : fadd (fin a) ninf = ninf := rfl

@[simp] lemma fadd_pinf_fin (a : K) : fadd pinf (fin a) = pinf := rfl

@[simp] lemma fadd_ninf_fin (a : K) : fadd ninf (fin a) = ninf := rfl

@[simp] lemma fadd_fin_nan (a : K) : fadd (fin a) nan = nan := rfl

@[simp] lemma fsub_fin_fin (a b : K) : fsub (fin a) (fin b) = fin (a - b) := by
  simp [fsub, sub_eq_add_neg]

@[simp] lemma fsub_pinf_fin (a : K) : fsub pinf (fin a) = pinf := rfl

@[simp] lemma fsub_ninf_fin (a : K) : fsub ninf (fin a) = ninf := rfl

@[simp] lemma fsub_nan_fin (a : K) : fsub nan (fin a) = nan := rfl

@[simp] lemma fmul_fin_fin (a b : K) : fmul (fin a) (fin b) = fin (a * b) := rfl

lemma fmul_fin_pinf_pos {a : K} (h : 0 < a) : fmul (fin a) pinf = pinf := by
  show (if 0 < a then pinf else if a < 0 then ninf else nan : F K) = pinf
  rw [if_pos h]

lemma fmul_fin_pinf_neg {a : K} (h : a < 0) : fmul (fin a) pinf = ninf := by
  show (if 0 < a then pinf else if a < 0 then ninf else nan : F K) = ninf
  rw [if_neg (not_lt.mpr h.le), if_pos h]

@[simp] lemma fmul_zero_pinf : fmul (fin (0 : K)) pinf = nan := by
  show (if (0:K) < 0 then pinf else if (0:K) < 0 then ninf else nan : F K) = nan
  rw [if_neg (lt_irrefl 0), if_neg (lt_irrefl 0)]

lemma fmul_fin_ninf_pos {a : K} (h : 0 < a) : fmul (fin a) ninf = ninf := by
  show (if 0 < a then ninf else if a < 0 then pinf else nan : F K) = ninf
  rw [if_pos h]

lemma fmul_fin_ninf_neg {a : K} (h : a < 0) : fmul (fin a) ninf = pinf := by
  show (if 0 < a then ninf else if a < 0 then pinf else nan : F K) = pinf
  rw [if_neg (not_lt.mpr h.le), if_pos h]

@[simp] lemma fmul_zero_ninf : fmul (fin (0 : K)) ninf = nan := by
  show (if (0:K) < 0 then ninf else if (0:K) < 0 then pinf else nan : F K) = nan
  rw [if_neg (lt_irrefl 0), if_neg (lt_irrefl 0)]

lemma fdiv_fin_fin {b : K} (a : K) (h : b ≠ 0) :
    fdiv (fin a) (fin b) = fin (a / b) := by
  show (if b = 0 then (if 0 < a then pinf else if a < 0 then ninf else nan)
    else fin (a / b) : F K) = fin (a / b)
  rw [if_neg h]

@[simp] lemma fdiv_one_zero : fdiv (fin (1 : K)) (fin 0) = pinf := by
  show (if (0:K) = 0 then (if (0:K) < 1 then pinf else if (1:K) < 0 then ninf else nan)
    else fin (1 / 0) : F K) = pinf
  rw [if_pos rfl, if_pos zero_lt_one]

@[simp] lemma fabs_fin (a : K) : fabs (fin a) = fin |a| := rfl

@[simp] lemma flt_fin_fin (a b : K) : flt (fin a) (fin b) = decide (a < b) := rfl

@[simp] lemma flt_fin_pinf (a : K) : flt (fin a) pinf = true := rfl

@[simp] lemma flt_fin_ninf (a : K) : flt (fin a) ninf = false := rfl

@[simp] lemma flt_fin_nan (a : K) : flt (fin a) nan = false := rfl

@[simp] lemma flt_pinf (x : F K) : flt pinf x = false := by cases x <;> rfl

@[simp] lemma flt_ninf_fin (a : K) : flt ninf (fin a) = true := rfl

@[simp] lemma flt_ninf_pinf : flt (ninf : F K) pinf = true := rfl

@[simp] lemma flt_ninf_ninf : flt (ninf : F K) ninf = false := rfl

@[simp] lemma flt_ninf_nan : flt (ninf : F K) nan = false := rfl

@[simp] lemma flt_nan (x : F K) : flt nan x = false := by cases x <;> rfl

@[simp] lemma flt_x_nan (x : F K) : flt x nan = false := by cases x <;> rfl

lemma flt_irrefl (x : F K) : flt x x = false := by
  cases x <;> simp

lemma flt_asymm {x y : F K} (h : flt x y = true) : flt y x = false := by
  cases x <;> cases y <;> simp_all
  exact le_of_lt h

lemma flt_trans {x y z : F K} (h1 : flt x y = true) (h2 : flt y z = true) :
    flt x z = true := by
  cases x <;> cases y <;> cases z <;> simp_all
  exact h1.trans h2

@[simp] lemma isNan_fin (a : K) : isNan (fin a) = false := rfl

@[simp] lemma isNan_pinf : isNan (pinf : F K) = false := rfl

@[simp] lemma isNan_ninf : isNan (ninf : F K) = false := rfl

@[simp] lemma isNan_nan : isNan (nan : F K) = true := rfl

@[simp] lemma fmin_fin_fin (a b : K) : fmin (fin a) (fin b) = fin (min a b) := by
  unfold fmin
  by_cases h : a < b
  · rw [if_neg (by simp), if_neg (by simp), if_pos (by simp [h]),
      min_eq_left h.le]
  · rw [if_neg (by simp), if_neg (by simp), if_neg (by simp [h]),
      min_eq_right (not_lt.mp h)]

@[simp] lemma fmax_fin_fin (a b : K) : fmax (fin a) (fin b) = fin (max a b) := by
  unfold fmax
  by_cases h : a < b
  · rw [if_neg (by simp), if_neg (by simp), if_pos (by simp [h]),
      max_eq_right h.le]
  · rw [if_neg (by simp), if_neg (by simp), if_neg (by simp [h]),
      max_eq_left (not_lt.mp h)]

@[simp] lemma fmin_fin_pinf (a : K) : fmin (fin a) pinf = fin a := by
  simp [fmin]

@[simp] lemma fmin_pinf_fin (a : K) : fmin pinf (fin a) = fin a := by
  simp [fmin]

@[simp] lemma fmin_pinf_pinf : fmin (pinf : F K) pinf = pinf := by simp [fmin]

@[simp] lemma fmin_ninf_left (x : F K) : fmin ninf x = ninf := by
  cases x <;> simp [fmin, flt_irrefl]

@[simp] lemma fmin_ninf_right (x : F K) : fmin x ninf = ninf := by
  cases x <;> simp [fmin, flt_irrefl]

@[simp] lemma fmin_nan_left (x : F K) : fmin nan x = x := by simp [fmin]

@[simp] lemma fmin_nan_right (x : F K) : fmin x nan = x := by
  cases x <;> simp [fmin]

@[simp] lemma fmin_x_pinf (x : F K) : fmin x pinf = if isNan x then pinf else x := by
  cases x <;> simp [fmin]

@[simp] lemma fmax_fin_ninf (a : K) : fmax (fin a) ninf = fin a := by
  simp [fmax]

@[simp] lemma fmax_ninf_fin (a : K) : fmax ninf (fin a) = fin a := by
  simp [fmax]

@[simp] lemma fmax_ninf_ninf : fmax (ninf : F K) ninf = ninf := by simp [fmax]

@[simp] lemma fmax_pinf_left (x : F K) : fmax pinf x = pinf := by
  cases x <;> simp [fmax, flt_irrefl]

@[simp] lemma fmax_x_pinf (x : F K) : fmax x pinf = pinf := by
  cases x <;> simp [fmax]

@[simp] lemma fmax_nan_left (x : F K) : fmax nan x = x := by simp [fmax]

@[simp] lemma fmax_nan_right (x : F K) : fmax x nan = x := by
  cases x <;> simp [fmax]

@[simp] lemma fmax_x_ninf (x : F K) : fmax x ninf = if isNan x then ninf else x := by
  cases x <;> simp [fmax]

end F

@[simp] lemma Intersect.empty_flag :
    (Intersect.empty : Intersect K).is_intersecting = false := rfl

@[simp] lemma Intersect.new_flag (p n : FV3 K) (d : F K) (m : Material K) :
    (Intersect.new p n d m).is_intersecting = true := rfl

@[simp] lemma Intersect.new_distance (p n : FV3 K) (d : F K) (m : Material K) :
    (Intersect.new p n d m).distance = d := rfl

@[simp] lemma Intersect.new_point (p n : FV3 K) (d : F K) (m : Material K) :
    (Intersect.new p n d m).point = p := rfl

@[simp] lemma Intersect.new_normal (p n : FV3 K) (d : F K) (m : Material K) :
    (Intersect.new p n d m).normal = n := rfl

/-- The three components of the per-axis entry times are instances of the
scalar expression `axis1`. -/
lemma slabT1_eq (c : Cube K) (o d : Vec3 K) :
    Cube.slabT1 c o d =
      ⟨axis1 (Cube.boxMin c).x (Cube.boxMax c).x o.x d.x,
       axis1 (Cube.boxMin c).y (Cube.boxMax c).y o.y d.y,
       axis1 (Cube.boxMin c).z (Cube.boxMax c).z o.z d.z⟩ := rfl

/-- The three components of the per-axis exit times are instances of the
scalar expression `axis2`. -/
lemma slabT2_eq (c : Cube K) (o d : Vec3 K) :
    Cube.slabT2 c o d =
      ⟨axis2 (Cube.boxMin c).x (Cube.boxMax c).x o.x d.x,
       axis2 (Cube.boxMin c).y (Cube.boxMax c).y o.y d.y,
       axis2 (Cube.boxMin c).z (Cube.boxMax c).z o.z d.z⟩ := rfl

/-- On a zero-direction axis with origin strictly inside the slab, the entry
time is `-inf` and the exit time is `+inf`. -/
lemma axis_zero_inside {mn mx o : K} (h1 : mn < o) (h2 : o < mx) :
    axis1 mn mx o 0 = F.ninf ∧ axis2 mn mx o 0 = F.pinf := by
  have hmn : mn - o < 0 := sub_neg.mpr h1
  have hmx : 0 < mx - o := sub_pos.mpr h2
  constructor
  · simp [axis1, fmul_fin_pinf_neg hmn, fmul_fin_pinf_pos hmx]
  · simp [axis2, fmul_fin_pinf_neg hmn, fmul_fin_pinf_pos hmx]

/-- On a zero-direction axis with origin strictly below the slab, both the
entry and the exit time are `+inf`. -/
lemma axis_zero_below {mn mx o : K} (h1 : o < mn) (h2 : o < mx) :
    axis1 mn mx o 0 = F.pinf ∧ axis2 mn mx o 0 = F.pinf := by
  have hmn : 0 < mn - o := sub_pos.mpr h1
  have hmx : 0 < mx - o := sub_pos.mpr h2
  constructor
  · simp [axis1, fmul_fin_pinf_pos hmn, fmul_fin_pinf_pos hmx]
  · simp [axis2, fmul_fin_pinf_pos hmn, fmul_fin_pinf_pos hmx]

/-- On a zero-direction axis with origin strictly above the slab, both the
entry and the exit time are `-inf`. -/
lemma axis_zero_above {mn mx o : K} (h1 : mn < o) (h2 : mx < o) :
    axis1 mn mx o 0 = F.ninf ∧ axis2 mn mx o 0 = F.ninf := by
  have hmn : mn - o < 0 := sub_neg.mpr h1
  have hmx : mx - o < 0 := sub_neg.mpr h2
  constructor
  · simp [axis1, fmul_fin_pinf_neg hmn, fmul_fin_pinf_neg hmx]
  · simp [axis2, fmul_fin_pinf_neg hmn, fmul_fin_pinf_neg hmx]

/-- On a nonzero-direction axis the entry and exit times are the finite
min/max of the two slab-boundary parameters. -/
lemma axis_nonzero {d : K} (hd : d ≠ 0) (mn mx o : K) :
    axis1 mn mx o d = F.fin (min ((mn - o) / d) ((mx - o) / d)) ∧
    axis2 mn mx o d = F.fin (max ((mn - o) / d) ((mx - o) / d)) := by
  constructor
  · simp [axis1, fdiv_fin_fin _ hd, div_eq_mul_inv]
  · simp [axis2, fdiv_fin_fin _ hd, div_eq_mul_inv]

/-- On a nonzero-direction axis, the slab constraint at ray parameter `t` is
exactly that `t` lies between the two boundary parameters. -/
lemma axis_nonzero_char {d : K} (hd : d ≠ 0) {mn mx : K} (o : K) (hmn : mn ≤ mx)
    (t : K) :
    (mn ≤ o + t * d ∧ o + t * d ≤ mx) ↔
      (min ((mn - o) / d) ((mx - o) / d) ≤ t ∧
        t ≤ max ((mn - o) / d) ((mx - o) / d)) := by
  have hsub : mn - o ≤ mx - o := sub_le_sub_right hmn o
  rcases hd.lt_or_lt with hneg | hpos
  · have hq : (mx - o) / d ≤ (mn - o) / d := by
      rw [div_le_div_right_of_neg hneg]; exact hsub
    rw [min_eq_right hq, max_eq_left hq]
    rw [div_le_iff_of_neg hneg, le_div_iff_of_neg hneg]
    constructor
    · rintro ⟨u1, u2⟩
      exact ⟨by linarith, by linarith⟩
    · rintro ⟨u1, u2⟩
      exact ⟨by linarith, by linarith⟩
  · have hq : (mn - o) / d ≤ (mx - o) / d := by
      rw [div_le_div_right hpos]; exact hsub
    rw [min_eq_left hq, max_eq_right hq]
    rw [div_le_iff hpos, le_div_iff hpos]
    constructor
    · rintro ⟨u1, u2⟩
      exact ⟨by linarith, by linarith⟩
    · rintro ⟨u1, u2⟩
      exact ⟨by linarith, by linarith⟩

/-- The cube intersector returns the no-hit value exactly when the slab
guard `t_near > t_far || t_far < 0` fires. -/
lemma cube_miss_iff (c : Cube K) (o d : Vec3 K) :
    (Cube.ray_intersect c o d).is_intersecting = false ↔
      (flt (Cube.tFar c o d) (Cube.tNear c o d)
        || flt (Cube.tFar c o d) (F.fin 0)) = true := by
  unfold Cube.ray_intersect
  by_cases h : (flt (Cube.tFar c o d) (Cube.tNear c o d)
      || flt (Cube.tFar c o d) (F.fin 0)) = true
  · rw [if_pos h]; simp [h]
  · rw [if_neg h]; simp [h]

/-- When the slab guard does not fire, the cube intersector returns the hit
built from `t_near`. -/
lemma cube_hit_eq {c : Cube K} {o d : Vec3 K}
    (h : (flt (Cube.tFar c o d) (Cube.tNear c o d)
      || flt (Cube.tFar c o d) (F.fin 0)) = false) :
    Cube.ray_intersect c o d =
      Intersect.new
        (FV3.add (Vec3.toF o) (FV3.smul (Cube.tNear c o d) (Vec3.toF d)))
        (Cube.compute_normal c
          (FV3.add (Vec3.toF o) (FV3.smul (Cube.tNear c o d) (Vec3.toF d))))
        (Cube.tNear c o d) c.material := by
  unfold Cube.ray_intersect
  rw [if_neg (by simp [h])]

/-- The face-normal ladder of `compute_normal`, reduced to scalar
inequalities for a finite hit point. -/
lemma compute_normal_fin (c : Cube K) (px py pz : K) :
    Cube.compute_normal c ⟨F.fin px, F.fin py, F.fin pz⟩ =
      (if |px - c.center.x - c.size / 2| < 1 / 1000 then
        (⟨F.fin 1, F.fin 0, F.fin 0⟩ : FV3 K)
      else if |px - c.center.x + c.size / 2| < 1 / 1000 then
        ⟨F.fin (-1), F.fin 0, F.fin 0⟩
      else if |py - c.center.y - c.size / 2| < 1 / 1000 then
        ⟨F.fin 0, F.fin 1, F.fin 0⟩
      else if |py - c.center.y + c.size / 2| < 1 / 1000 then
        ⟨F.fin 0, F.fin (-1), F.fin 0⟩
      else if |pz - c.center.z - c.size / 2| < 1 / 1000 then
        ⟨F.fin 0, F.fin 0, F.fin 1⟩
      else ⟨F.fin 0, F.fin 0, F.fin (-1)⟩) := by
  simp [Cube.compute_normal, FV3.sub, FV3.zip, Vec3.toF]

/-- Claim C3: for every cube and every ray, `Cube::ray_intersect` returns a
non-hit result (hit flag false) exactly when `t_near > t_far` or
`t_far < 0` in the IEEE comparisons of the source, where `t_near` is the
maximum over the three axes of the per-axis entry times and `t_far` the
minimum of the per-axis exit times of the slab intersection against the box
`[center - size/2, center + size/2]`. -/
theorem claim3_cube_miss_condition (c : Cube K) (o d : Vec3 K) :
    (Cube.ray_intersect c o d).is_intersecting = false ↔
      (flt (Cube.tFar c o d) (Cube.tNear c o d) = true ∨
        flt (Cube.tFar c o d) (F.fin 0) = true) := by
  rw [cube_miss_iff, Bool.or_eq_true]

/-- Claim C5: for every cube hit the returned normal is
`compute_normal` of the hit point, and on finite points `compute_normal`
tests the faces in the fixed priority order `+x, -x, +y, -y, +z` with
absolute tolerance `0.001` on the center-relative coordinate against the
face offset `±size/2`, the first match winning and the default being the
`-z` normal `(0,0,-1)`. -/
theorem claim5_fixed_order_normal :
    (∀ (c : Cube K) (o d : Vec3 K),
      (Cube.ray_intersect c o d).is_intersecting = true →
        (Cube.ray_intersect c o d).normal =
          Cube.compute_normal c (Cube.ray_intersect c o d).point) ∧
    (∀ (c : Cube K) (px py pz : K),
      Cube.compute_normal c ⟨F.fin px, F.fin py, F.fin pz⟩ =
        (if |px - c.center.x - c.size / 2| < 1 / 1000 then
          (⟨F.fin 1, F.fin 0, F.fin 0⟩ : FV3 K)
        else if |px - c.center.x + c.size / 2| < 1 / 1000 then
          ⟨F.fin (-1), F.fin 0, F.fin 0⟩
        else if |py - c.center.y - c.size / 2| < 1 / 1000 then
          ⟨F.fin 0, F.fin 1, F.fin 0⟩
        else if |py - c.center.y + c.size / 2| < 1 / 1000 then
          ⟨F.fin 0, F.fin (-1), F.fin 0⟩
        else if |pz - c.center.z - c.size / 2| < 1 / 1000 then
          ⟨F.fin 0, F.fin 0, F.fin 1⟩
        else ⟨F.fin 0, F.fin 0, F.fin (-1)⟩)) := by
  constructor
  · intro c o d h
    by_cases hg : (flt (Cube.tFar c o d) (Cube.tNear c o d)
        || flt (Cube.tFar c o d) (F.fin 0)) = true
    · rw [(cube_miss_iff c o d).mpr hg] at h; cases h
    · rw [cube_hit_eq (Bool.not_eq_true _ |>.mp hg)]
      simp
  · exact fun c px py pz => compute_normal_fin c px py pz

/-- Witness for claim C5 at a concrete hit (cube of size 2 at the origin,
ray from `(0,0,5)` toward `(0,0,-1)`). -/
theorem claim5_witness :
    (Cube.ray_intersect wCube ⟨0, 0, 5⟩ ⟨0, 0, -1⟩).is_intersecting = true ∧
      (Cube.ray_intersect wCube ⟨0, 0, 5⟩ ⟨0, 0, -1⟩).normal =
        Cube.compute_normal wCube
          (Cube.ray_intersect wCube ⟨0, 0, 5⟩ ⟨0, 0, -1⟩).point :=
  ⟨by with_unfolding_all decide,
    claim5_fixed_order_normal.1 wCube ⟨0, 0, 5⟩ ⟨0, 0, -1⟩
      (by with_unfolding_all decide)⟩

/-- Claim C2: whenever the object's intersector reports a hit, `cast_ray`
returns exactly `diffuse + specular + ambient` as the spec words them:
diffuse is `material.diffuse * albedo[0] * clamp(dot(normal, light_dir), 0, 1)`,
specular is `light.color * albedo[1] * clamp(dot(view_dir, reflect_dir), 0, inf)
^ material.specular`, ambient is `material.diffuse * 0.2`, with the light,
view and reflect directions the normalized vectors of the spec; the
channel-wise sum is returned unclamped. -/
theorem claim2_cast_ray_formula (sq : F K → F K) (pf : F K → F K → F K)
    (o d : Vec3 K) (object : Vec3 K → Vec3 K → Intersect K)
    (light : Light K) (depth : Nat) (skybox : Skybox K)
    (h : (object o d).is_intersecting = true) :
    castRay sq pf o d object light depth skybox =
      Color.add
        (Color.add (specDiffuseTerm sq (object o d) light)
          (specSpecularTerm sq pf o (object o d) light))
        (specAmbientTerm (object o d)) := by
  unfold castRay
  rw [if_pos h]
  rfl

/-- Witness for claim C2 at a concrete always-hitting object. -/
theorem claim2_witness :
    (wObject ⟨0, 0, 5⟩ ⟨0, 0, -1⟩).is_intersecting = true ∧
      castRay wsq wpf ⟨0, 0, 5⟩ ⟨0, 0, -1⟩ wObject wLight 0 wSkybox =
        Color.add
          (Color.add (specDiffuseTerm wsq (wObject ⟨0, 0, 5⟩ ⟨0, 0, -1⟩) wLight)
            (specSpecularTerm wsq wpf ⟨0, 0, 5⟩ (wObject ⟨0, 0, 5⟩ ⟨0, 0, -1⟩)
              wLight))
          (specAmbientTerm (wObject ⟨0, 0, 5⟩ ⟨0, 0, -1⟩)) :=
  ⟨rfl, claim2_cast_ray_formula wsq wpf ⟨0, 0, 5⟩ ⟨0, 0, -1⟩ wObject wLight 0
    wSkybox rfl⟩

/-- The plane intersector written as a nest of guards over the solved ray
parameter `planeT` (definitional restatement of the source). -/
lemma plane_ray_intersect_eq (p : Plane K) (o d : Vec3 K) :
    Plane.ray_intersect p o d =
      (if |Vec3.dot p.normal d| > 1 / 1000000 then
        (if planeT p o d ≥ 0 then
          (if |(rayAt o d (planeT p o d)).x| ≤ 1 ∧
              |(rayAt o d (planeT p o d)).z| ≤ 1 then
            Intersect.new (Vec3.toF (rayAt o d (planeT p o d)))
              (Vec3.toF
                (if Vec3.dot p.normal d < 0 then p.normal else Vec3.neg p.normal))
              (F.fin (planeT p o d)) p.material
          else Intersect.empty)
        else Intersect.empty)
      else Intersect.empty) := rfl

/-- The dot product is antitone under negation of the left vector. -/
lemma dot_neg_left (a b : Vec3 K) : Vec3.dot (Vec3.neg a) b = -Vec3.dot a b := by
  simp [Vec3.dot, Vec3.neg]; ring

/-- Claim C8: whenever `Plane::ray_intersect` reports a hit, the hit required
`|dot(normal, direction)| > 1e-6` and `t >= 0`, and the returned normal is
the stored normal if `dot(stored, direction) < 0` and its negation
otherwise, so that it always opposes the incident ray. -/
theorem claim8_plane_normal_opposes_ray (p : Plane K) (o d : Vec3 K)
    (h : (Plane.ray_intersect p o d).is_intersecting = true) :
    |Vec3.dot p.normal d| > 1 / 1000000 ∧
    (Plane.ray_intersect p o d).distance = F.fin (planeT p o d) ∧
    0 ≤ planeT p o d ∧
    (Plane.ray_intersect p o d).normal =
      Vec3.toF
        (if Vec3.dot p.normal d < 0 then p.normal else Vec3.neg p.normal) ∧
    Vec3.dot
      (if Vec3.dot p.normal d < 0 then p.normal else Vec3.neg p.normal) d
      < 0 := by
  rw [plane_ray_intersect_eq] at h ⊢
  by_cases h1 : |Vec3.dot p.normal d| > 1 / 1000000
  swap
  · rw [if_neg h1] at h; cases h
  rw [if_pos h1] at h ⊢
  by_cases h2 : planeT p o d ≥ 0
  swap
  · rw [if_neg h2] at h; cases h
  rw [if_pos h2] at h ⊢
  by_cases h3 : |(rayAt o d (planeT p o d)).x| ≤ 1 ∧
      |(rayAt o d (planeT p o d)).z| ≤ 1
  swap
  · rw [if_neg h3] at h; cases h
  rw [if_pos h3]
  refine ⟨h1, rfl, h2, rfl, ?_⟩
  by_cases h4 : Vec3.dot p.normal d < 0
  · rw [if_pos h4]; exact h4
  · rw [if_neg h4, dot_neg_left]
    have : Vec3.dot p.normal d ≠ 0 := by
      intro h0; rw [h0, abs_zero] at h1; exact absurd h1 (by norm_num)
    have hpos : 0 < Vec3.dot p.normal d := (not_lt.mp h4).lt_of_ne (Ne.symm this)
    linarith

/-- Witness for claim C8 at a concrete plane hit. -/
theorem claim8_witness :
    (Plane.ray_intersect wPlane ⟨0, 1, 0⟩ ⟨0, -1, 0⟩).is_intersecting = true ∧
      (|Vec3.dot wPlane.normal ⟨0, -1, 0⟩| > 1 / 1000000 ∧
      (Plane.ray_intersect wPlane ⟨0, 1, 0⟩ ⟨0, -1, 0⟩).distance =
        F.fin (planeT wPlane ⟨0, 1, 0⟩ ⟨0, -1, 0⟩) ∧
      0 ≤ planeT wPlane ⟨0, 1, 0⟩ ⟨0, -1, 0⟩ ∧
      (Plane.ray_intersect wPlane ⟨0, 1, 0⟩ ⟨0, -1, 0⟩).normal =
        Vec3.toF
          (if Vec3.dot wPlane.normal ⟨0, -1, 0⟩ < 0 then wPlane.normal
            else Vec3.neg wPlane.normal) ∧
      Vec3.dot
        (if Vec3.dot wPlane.normal ⟨0, -1, 0⟩ < 0 then wPlane.normal
          else Vec3.neg wPlane.normal) ⟨0, -1, 0⟩ < 0) :=
  ⟨by with_unfolding_all decide,
    claim8_plane_normal_opposes_ray wPlane ⟨0, 1, 0⟩ ⟨0, -1, 0⟩
      (by with_unfolding_all decide)⟩

/-- Counterexample to claim C7 as stated: a plane through `(5,0,5)` with
normal `(0,1,0)` and the ray from `(5,1,5)` straight down solve the plane
equation at `t = 1 >= 0` with hit coordinates relative to the plane's own
point equal to `(0,0)` (inside the claimed bound), yet the code reports no
hit, because the source checks the absolute world coordinates instead. -/
theorem claim7_counterexample :
    |Vec3.dot wPlaneFar.normal ⟨0, -1, 0⟩| > 1 / 1000000 ∧
    planeT wPlaneFar ⟨5, 1, 5⟩ ⟨0, -1, 0⟩ = 1 ∧
    |(rayAt ⟨5, 1, 5⟩ ⟨0, -1, 0⟩ 1).x - wPlaneFar.point.x| ≤ 1 ∧
    |(rayAt ⟨5, 1, 5⟩ ⟨0, -1, 0⟩ 1).z - wPlaneFar.point.z| ≤ 1 ∧
    (Plane.ray_intersect wPlaneFar ⟨5, 1, 5⟩ ⟨0, -1, 0⟩).is_intersecting =
      false := by
  with_unfolding_all decide

/-- Claim C7 as amended: `Plane::ray_intersect` returns a hit only if the
hit point's absolute world `x` and `z` coordinates both satisfy
`|coord| <= 1`; any ray whose plane-equation solution `t >= 0` lands outside
that absolute bound is rejected as a non-hit. -/
theorem claim7_amended_plane_tile_bound (p : Plane K) (o d : Vec3 K) :
    ((Plane.ray_intersect p o d).is_intersecting = true →
      (Plane.ray_intersect p o d).point =
        Vec3.toF (rayAt o d (planeT p o d)) ∧
      |(rayAt o d (planeT p o d)).x| ≤ 1 ∧
      |(rayAt o d (planeT p o d)).z| ≤ 1) ∧
    (|Vec3.dot p.normal d| > 1 / 1000000 →
      planeT p o d ≥ 0 →
      ¬(|(rayAt o d (planeT p o d)).x| ≤ 1 ∧
        |(rayAt o d (planeT p o d)).z| ≤ 1) →
      (Plane.ray_intersect p o d).is_intersecting = false) := by
  constructor
  · intro h
    rw [plane_ray_intersect_eq] at h ⊢
    by_cases h1 : |Vec3.dot p.normal d| > 1 / 1000000
    swap
    · rw [if_neg h1] at h; cases h
    rw [if_pos h1] at h ⊢
    by_cases h2 : planeT p o d ≥ 0
    swap
    · rw [if_neg h2] at h; cases h
    rw [if_pos h2] at h ⊢
    by_cases h3 : |(rayAt o d (planeT p o d)).x| ≤ 1 ∧
        |(rayAt o d (planeT p o d)).z| ≤ 1
    · rw [if_pos h3]
      exact ⟨rfl, h3.1, h3.2⟩
    · rw [if_neg h3] at h; cases h
  · intro h1 h2 h3
    rw [plane_ray_intersect_eq, if_pos h1, if_pos h2, if_neg h3]
    rfl

/-- Witness for the amended claim C7 at a concrete plane hit. -/
theorem claim7_witness :
    (Plane.ray_intersect wPlane ⟨0, 1, 0⟩ ⟨0, -1, 0⟩).is_intersecting = true ∧
      ((Plane.ray_intersect wPlane ⟨0, 1, 0⟩ ⟨0, -1, 0⟩).point =
        Vec3.toF (rayAt ⟨0, 1, 0⟩ ⟨0, -1, 0⟩
          (planeT wPlane ⟨0, 1, 0⟩ ⟨0, -1, 0⟩)) ∧
      |(rayAt ⟨0, 1, 0⟩ ⟨0, -1, 0⟩ (planeT wPlane ⟨0, 1, 0⟩ ⟨0, -1, 0⟩)).x| ≤ 1 ∧
      |(rayAt ⟨0, 1, 0⟩ ⟨0, -1, 0⟩ (planeT wPlane ⟨0, 1, 0⟩ ⟨0, -1, 0⟩)).z| ≤ 1) :=
  ⟨by with_unfolding_all decide,
    (claim7_amended_plane_tile_bound wPlane ⟨0, 1, 0⟩ ⟨0, -1, 0⟩).1
      (by with_unfolding_all decide)⟩

/-- The per-pixel body with its `let` bindings expanded (definitional
restatement of the source). -/
lemma renderPixel_eq (sq : F K → F K) (pf : F K → F K → F K)
    (plane : Plane K) (cubes : List (Cube K)) (eye dir : Vec3 K)
    (light : Light K) (skybox : Skybox K) :
    renderPixel sq pf plane cubes eye dir light skybox =
      (cubes.foldl (renderStep sq pf eye dir light skybox)
        (F.pinf,
          if (Plane.ray_intersect plane eye dir).is_intersecting then
            castRay sq pf eye dir (Plane.ray_intersect plane) light 0 skybox
          else Skybox.sample skybox dir)).2 := rfl

/-- The cube scan leaves its state unchanged when no cube in the list hits
the ray. -/
lemma foldl_renderStep_no_hit (sq : F K → F K) (pf : F K → F K → F K)
    (eye dir : Vec3 K) (light : Light K) (skybox : Skybox K) :
    ∀ (L : List (Cube K)) (st : F K × Color K),
      (∀ c ∈ L, (Cube.ray_intersect c eye dir).is_intersecting = false) →
      L.foldl (renderStep sq pf eye dir light skybox) st = st := by
  intro L
  induction L with
  | nil => intro st _; rfl
  | cons a T ih =>
    intro st h
    have ha := h a (List.mem_cons_self a T)
    have hT : ∀ c ∈ T, (Cube.ray_intersect c eye dir).is_intersecting = false :=
      fun c hc => h c (List.mem_cons_of_mem a hc)
    have hstep : renderStep sq pf eye dir light skybox st a = st := by
      unfold renderStep
      rw [if_neg (by simp [ha])]
    rw [List.foldl_cons, hstep]
    exact ih st hT

/-- Claim C9: `Skybox::sample` ignores the direction and returns the current
material's diffuse color, and a pixel whose ray hits neither the plane nor
any cube is written exactly that color. -/
theorem claim9_skybox_uniform_fallback (sq : F K → F K) (pf : F K → F K → F K)
    (plane : Plane K) (cubes : List (Cube K)) (eye dir dir2 : Vec3 K)
    (light : Light K) (skybox : Skybox K)
    (hp : (Plane.ray_intersect plane eye dir).is_intersecting = false)
    (hc : ∀ c ∈ cubes, (Cube.ray_intersect c eye dir).is_intersecting = false) :
    Skybox.sample skybox dir = skybox.current_material.diffuse ∧
    Skybox.sample skybox dir = Skybox.sample skybox dir2 ∧
    renderPixel sq pf plane cubes eye dir light skybox =
      skybox.current_material.diffuse := by
  refine ⟨rfl, rfl, ?_⟩
  rw [renderPixel_eq,
    foldl_renderStep_no_hit sq pf eye dir light skybox cubes _ hc]
  simp [hp, Skybox.sample]

/-- Witness for claim C9: a concrete ray missing the plane and the single
scene cube. -/
theorem claim9_witness :
    (Plane.ray_intersect wPlane ⟨0, 1, 0⟩ ⟨0, 1, 0⟩).is_intersecting = false ∧
    (∀ c ∈ [wCubeFar],
      (Cube.ray_intersect c ⟨0, 1, 0⟩ ⟨0, 1, 0⟩).is_intersecting = false) ∧
    renderPixel wsq wpf wPlane [wCubeFar] ⟨0, 1, 0⟩ ⟨0, 1, 0⟩ wLight wSkybox =
      wSkybox.current_material.diffuse :=
  ⟨by with_unfolding_all decide, by with_unfolding_all decide,
    (claim9_skybox_uniform_fallback wsq wpf wPlane [wCubeFar] ⟨0, 1, 0⟩
      ⟨0, 1, 0⟩ ⟨1, 0, 0⟩ wLight wSkybox (by with_unfolding_all decide)
      (by with_unfolding_all decide)).2.2⟩

set_option maxRecDepth 40000 in
/-- Counterexample to claim C4 as stated: for the cube at the origin of size
`s = 0.001 > 0` and the ray from `(0,0,5)` toward `(0,0,-1)`, the returned
normal is the `+x` normal `(1,0,0)` (the first face whose tolerance test
fires, since `s/2 < 0.001`), not `(0,0,1)` as claimed. -/
theorem claim4_counterexample :
    0 < ((1 : ℚ) / 1000) ∧
    wCubeTiny.size = 1 / 1000 ∧
    (Cube.ray_intersect wCubeTiny ⟨0, 0, 5⟩ ⟨0, 0, -1⟩).normal =
      ⟨F.fin 1, F.fin 0, F.fin 0⟩ ∧
    (⟨F.fin 1, F.fin 0, F.fin 0⟩ : FV3 ℚ) ≠ ⟨F.fin 0, F.fin 0, F.fin 1⟩ := by
  with_unfolding_all decide

/-- Claim C4 as amended: for every size `s >= 0.002` (so that the face
tolerance `0.001` cannot capture a wrong face; sizes below `0.002` return
the `+x` normal instead), the cube at the origin of size `s` and the ray
from `(0,0,5)` toward `(0,0,-1)` produce a hit with distance `5 - s/2`, hit
point `(0,0,s/2)` and normal `(0,0,1)`. -/
theorem claim4_amended_axis_hit (m : Material K) (s : K) (hs : 1 / 500 ≤ s) :
    (Cube.ray_intersect ⟨⟨0, 0, 0⟩, s, m⟩ ⟨0, 0, 5⟩ ⟨0, 0, -1⟩).is_intersecting
      = true ∧
    (Cube.ray_intersect ⟨⟨0, 0, 0⟩, s, m⟩ ⟨0, 0, 5⟩ ⟨0, 0, -1⟩).distance =
      F.fin (5 - s / 2) ∧
    (Cube.ray_intersect ⟨⟨0, 0, 0⟩, s, m⟩ ⟨0, 0, 5⟩ ⟨0, 0, -1⟩).point =
      ⟨F.fin 0, F.fin 0, F.fin (s / 2)⟩ ∧
    (Cube.ray_intersect ⟨⟨0, 0, 0⟩, s, m⟩ ⟨0, 0, 5⟩ ⟨0, 0, -1⟩).normal =
      ⟨F.fin 0, F.fin 0, F.fin 1⟩ := by
  have hs0 : (0 : K) < s := lt_of_lt_of_le (by norm_num) hs
  have ezx := axis_zero_inside (show (0 : K) - s / 2 < 0 by linarith)
    (show (0 : K) < 0 + s / 2 by linarith)
  have enz := axis_nonzero (show (-1 : K) ≠ 0 by norm_num) (0 - s / 2)
    (0 + s / 2) 5
  have hm1 : ((0 : K) - s / 2 - 5) / (-1) = 5 + s / 2 := by ring
  have hm2 : ((0 : K) + s / 2 - 5) / (-1) = 5 - s / 2 := by ring
  have hminz : min (((0 : K) - s / 2 - 5) / (-1)) ((0 + s / 2 - 5) / (-1)) =
      5 - s / 2 := by
    rw [hm1, hm2]; exact min_eq_right (by linarith)
  have hmaxz : max (((0 : K) - s / 2 - 5) / (-1)) ((0 + s / 2 - 5) / (-1)) =
      5 + s / 2 := by
    rw [hm1, hm2]; exact max_eq_left (by linarith)
  have hT1 : Cube.slabT1 ⟨⟨0, 0, 0⟩, s, m⟩ ⟨0, 0, 5⟩ ⟨0, 0, -1⟩ =
      ⟨F.ninf, F.ninf, F.fin (5 - s / 2)⟩ := by
    rw [slabT1_eq]
    dsimp only [Cube.boxMin, Cube.boxMax, Vec3.sub, Vec3.add]
    rw [ezx.1, enz.1, hminz]
  have hT2 : Cube.slabT2 ⟨⟨0, 0, 0⟩, s, m⟩ ⟨0, 0, 5⟩ ⟨0, 0, -1⟩ =
      ⟨F.pinf, F.pinf, F.fin (5 + s / 2)⟩ := by
    rw [slabT2_eq]
    dsimp only [Cube.boxMin, Cube.boxMax, Vec3.sub, Vec3.add]
    rw [ezx.2, enz.2, hmaxz]
  have hnear : Cube.tNear ⟨⟨0, 0, 0⟩, s, m⟩ ⟨0, 0, 5⟩ ⟨0, 0, -1⟩ =
      F.fin (5 - s / 2) := by
    unfold Cube.tNear; rw [hT1]; simp [FV3.maxc]
  have hfar : Cube.tFar ⟨⟨0, 0, 0⟩, s, m⟩ ⟨0, 0, 5⟩ ⟨0, 0, -1⟩ =
      F.fin (5 + s / 2) := by
    unfold Cube.tFar; rw [hT2]; simp [FV3.minc]
  have hguard : (flt (Cube.tFar ⟨⟨0, 0, 0⟩, s, m⟩ ⟨0, 0, 5⟩ ⟨0, 0, -1⟩)
      (Cube.tNear ⟨⟨0, 0, 0⟩, s, m⟩ ⟨0, 0, 5⟩ ⟨0, 0, -1⟩)
      || flt (Cube.tFar ⟨⟨0, 0, 0⟩, s, m⟩ ⟨0, 0, 5⟩ ⟨0, 0, -1⟩) (F.fin 0)) =
      false := by
    rw [hnear, hfar]
    simp only [flt_fin_fin]
    rw [decide_eq_false (by linarith : ¬(5 + s / 2 < 5 - s / 2)),
      decide_eq_false (by linarith : ¬(5 + s / 2 < (0 : K)))]
    rfl
  have hpt : FV3.add (Vec3.toF ⟨0, 0, 5⟩)
      (FV3.smul (Cube.tNear ⟨⟨0, 0, 0⟩, s, m⟩ ⟨0, 0, 5⟩ ⟨0, 0, -1⟩)
        (Vec3.toF ⟨0, 0, -1⟩)) = ⟨F.fin 0, F.fin 0, F.fin (s / 2)⟩ := by
    rw [hnear]
    dsimp only [FV3.add, FV3.smul, FV3.zip, Vec3.toF]
    simp only [fmul_fin_fin, fadd_fin_fin]
    rw [show (0 : K) + (5 - s / 2) * 0 = 0 by ring,
      show (5 : K) + (5 - s / 2) * -1 = s / 2 by ring]
  have hnorm : Cube.compute_normal ⟨⟨0, 0, 0⟩, s, m⟩
      ⟨F.fin 0, F.fin 0, F.fin (s / 2)⟩ = ⟨F.fin 0, F.fin 0, F.fin 1⟩ := by
    rw [compute_normal_fin]
    dsimp only
    have habs : |(0 : K) - 0 - s / 2| = s / 2 := by
      rw [show (0 : K) - 0 - s / 2 = -(s / 2) by ring, abs_neg,
        abs_of_nonneg (by linarith)]
    have habs2 : |(0 : K) - 0 + s / 2| = s / 2 := by
      rw [show (0 : K) - 0 + s / 2 = s / 2 by ring,
        abs_of_nonneg (by linarith)]
    have hbig : ¬(s / 2 < 1 / 1000) := by
      intro hlt; linarith
    rw [if_neg (by rw [habs]; exact hbig), if_neg (by rw [habs2]; exact hbig),
      if_neg (by rw [habs]; exact hbig), if_neg (by rw [habs2]; exact hbig),
      if_pos (by
        rw [show |s / 2 - 0 - s / 2| = |(0 : K)| by ring_nf, abs_zero]
        norm_num)]
  rw [cube_hit_eq hguard, hpt]
  exact ⟨rfl, by simp [hnear], by simp, by simp [hnorm]⟩

/-- Witness for the amended claim C4 at size `s = 2`. -/
theorem claim4_witness :
    (1 : ℚ) / 500 ≤ 2 ∧
    (Cube.ray_intersect ⟨⟨0, 0, 0⟩, 2, wMaterial⟩ ⟨0, 0, 5⟩
      ⟨0, 0, -1⟩).distance = F.fin (5 - 2 / 2) :=
  ⟨by norm_num,
    (claim4_amended_axis_hit wMaterial 2 (by norm_num)).2.1⟩

/-- A three-fold Rust `max` of values that are each `-inf` or negative-finite,
at least one of them finite, is a negative finite value. -/
lemma fmax3_neg {x y z : F K}
    (hx : x = F.ninf ∨ ∃ a, x = F.fin a ∧ a < 0)
    (hy : y = F.ninf ∨ ∃ a, y = F.fin a ∧ a < 0)
    (hz : z = F.ninf ∨ ∃ a, z = F.fin a ∧ a < 0)
    (hne : ¬(x = F.ninf ∧ y = F.ninf ∧ z = F.ninf)) :
    ∃ q, fmax (fmax x y) z = F.fin q ∧ q < 0 := by
  rcases hx with rfl | ⟨a, rfl, ha⟩ <;> rcases hy with rfl | ⟨b, rfl, hb⟩ <;>
    rcases hz with rfl | ⟨c, rfl, hc⟩
  · exact absurd ⟨rfl, rfl, rfl⟩ hne
  · exact ⟨c, by simp, hc⟩
  · exact ⟨b, by simp, hb⟩
  · exact ⟨max b c, by simp, max_lt hb hc⟩
  · exact ⟨a, by simp, ha⟩
  · exact ⟨max a c, by simp, max_lt ha hc⟩
  · exact ⟨max a b, by simp, max_lt ha hb⟩
  · exact ⟨max (max a b) c, by simp, max_lt (max_lt ha hb) hc⟩

/-- A three-fold Rust `min` of values that are each `+inf` or positive-finite,
at least one of them finite, is a positive finite value. -/
lemma fmin3_pos {x y z : F K}
    (hx : x = F.pinf ∨ ∃ b, x = F.fin b ∧ 0 < b)
    (hy : y = F.pinf ∨ ∃ b, y = F.fin b ∧ 0 < b)
    (hz : z = F.pinf ∨ ∃ b, z = F.fin b ∧ 0 < b)
    (hne : ¬(x = F.pinf ∧ y = F.pinf ∧ z = F.pinf)) :
    ∃ r, fmin (fmin x y) z = F.fin r ∧ 0 < r := by
  rcases hx with rfl | ⟨a, rfl, ha⟩ <;> rcases hy with rfl | ⟨b, rfl, hb⟩ <;>
    rcases hz with rfl | ⟨c, rfl, hc⟩
  · exact absurd ⟨rfl, rfl, rfl⟩ hne
  · exact ⟨c, by simp, hc⟩
  · exact ⟨b, by simp, hb⟩
  · exact ⟨min b c, by simp, lt_min hb hc⟩
  · exact ⟨a, by simp, ha⟩
  · exact ⟨min a c, by simp, lt_min ha hc⟩
  · exact ⟨min a b, by simp, lt_min ha hb⟩
  · exact ⟨min (min a b) c, by simp, lt_min (lt_min ha hb) hc⟩

/-- Per-axis entry/exit shapes when the ray origin is strictly inside the
slab: the entry time is `-inf` or negative-finite, the exit time is `+inf`
or positive-finite, and on a nonzero-direction axis both are finite. -/
lemma axis_inside_char {mn mx o : K} (d : K) (h1 : mn < o) (h2 : o < mx) :
    ((axis1 mn mx o d = F.ninf ∨ ∃ a, axis1 mn mx o d = F.fin a ∧ a < 0) ∧
     (axis2 mn mx o d = F.pinf ∨ ∃ b, axis2 mn mx o d = F.fin b ∧ 0 < b)) ∧
    (d ≠ 0 → (∃ a, axis1 mn mx o d = F.fin a ∧ a < 0) ∧
      (∃ b, axis2 mn mx o d = F.fin b ∧ 0 < b)) := by
  by_cases hd : d = 0
  · subst hd
    obtain ⟨e1, e2⟩ := axis_zero_inside h1 h2
    exact ⟨⟨Or.inl e1, Or.inl e2⟩, fun h => absurd rfl h⟩
  · obtain ⟨e1, e2⟩ := axis_nonzero hd mn mx o
    have hq1 : min ((mn - o) / d) ((mx - o) / d) < 0 := by
      rcases lt_or_gt_of_ne hd with hneg | hpos
      · exact min_lt_iff.mpr
          (Or.inr (div_neg_of_pos_of_neg (sub_pos.mpr h2) hneg))
      · exact min_lt_iff.mpr
          (Or.inl (div_neg_of_neg_of_pos (sub_neg.mpr h1) hpos))
    have hq2 : 0 < max ((mn - o) / d) ((mx - o) / d) := by
      rcases lt_or_gt_of_ne hd with hneg | hpos
      · exact lt_max_iff.mpr
          (Or.inl (div_pos_of_neg_of_neg (sub_neg.mpr h1) hneg))
      · exact lt_max_iff.mpr
          (Or.inr (div_pos (sub_pos.mpr h2) hpos))
    exact ⟨⟨Or.inr ⟨_, e1, hq1⟩, Or.inr ⟨_, e2, hq2⟩⟩,
      fun _ => ⟨⟨_, e1, hq1⟩, ⟨_, e2, hq2⟩⟩⟩

/-- A nonzero finite vector has at least one nonzero component. -/
lemma vec_ne_zero_component {d : Vec3 K} (hd : d ≠ ⟨0, 0, 0⟩) :
    d.x ≠ 0 ∨ d.y ≠ 0 ∨ d.z ≠ 0 := by
  by_contra h
  push_neg at h
  obtain ⟨h1, h2, h3⟩ := h
  apply hd
  cases d
  simp_all

/-- Claim C10: for every cube and ray with origin strictly inside the box
(and a nonzero direction, as every ray of the design has), `ray_intersect`
returns a hit whose distance is the negative value `t_near` while
`t_far >= 0`, and whose hit point `origin + t_near * direction` lies behind
the ray origin; the negative entry distance is not rejected. -/
theorem claim10_origin_inside_hits_behind (c : Cube K) (o d : Vec3 K)
    (hin : strictlyInside c o) (hd : d ≠ ⟨0, 0, 0⟩) :
    (Cube.ray_intersect c o d).is_intersecting = true ∧
    ∃ q r : K,
      Cube.tNear c o d = F.fin q ∧ q < 0 ∧
      Cube.tFar c o d = F.fin r ∧ 0 ≤ r ∧
      (Cube.ray_intersect c o d).distance = F.fin q ∧
      (Cube.ray_intersect c o d).point = Vec3.toF (rayAt o d q) ∧
      Vec3.dot (Vec3.sub (rayAt o d q) o) d = q * Vec3.dot d d ∧
      q * Vec3.dot d d < 0 := by
  obtain ⟨i1x, i2x, i1y, i2y, i1z, i2z⟩ := hin
  have hax := axis_inside_char d.x i1x i2x
  have hay := axis_inside_char d.y i1y i2y
  have haz := axis_inside_char d.z i1z i2z
  have hcomp := vec_ne_zero_component hd
  have hne1 : ¬(axis1 (Cube.boxMin c).x (Cube.boxMax c).x o.x d.x = F.ninf ∧
      axis1 (Cube.boxMin c).y (Cube.boxMax c).y o.y d.y = F.ninf ∧
      axis1 (Cube.boxMin c).z (Cube.boxMax c).z o.z d.z = F.ninf) := by
    rintro ⟨n1, n2, n3⟩
    rcases hcomp with h | h | h
    · obtain ⟨a, ea, _⟩ := (hax.2 h).1; rw [ea] at n1; cases n1
    · obtain ⟨a, ea, _⟩ := (hay.2 h).1; rw [ea] at n2; cases n2
    · obtain ⟨a, ea, _⟩ := (haz.2 h).1; rw [ea] at n3; cases n3
  have hne2 : ¬(axis2 (Cube.boxMin c).x (Cube.boxMax c).x o.x d.x = F.pinf ∧
      axis2 (Cube.boxMin c).y (Cube.boxMax c).y o.y d.y = F.pinf ∧
      axis2 (Cube.boxMin c).z (Cube.boxMax c).z o.z d.z = F.pinf) := by
    rintro ⟨n1, n2, n3⟩
    rcases hcomp with h | h | h
    · obtain ⟨b, eb, _⟩ := (hax.2 h).2; rw [eb] at n1; cases n1
    · obtain ⟨b, eb, _⟩ := (hay.2 h).2; rw [eb] at n2; cases n2
    · obtain ⟨b, eb, _⟩ := (haz.2 h).2; rw [eb] at n3; cases n3
  obtain ⟨q, hq, hqneg⟩ := fmax3_neg hax.1.1 hay.1.1 haz.1.1 hne1
  obtain ⟨r, hr, hrpos⟩ := fmin3_pos hax.1.2 hay.1.2 haz.1.2 hne2
  have hnear : Cube.tNear c o d = F.fin q := by
    unfold Cube.tNear
    rw [slabT1_eq]
    exact hq
  have hfar : Cube.tFar c o d = F.fin r := by
    unfold Cube.tFar
    rw [slabT2_eq]
    exact hr
  have hguard : (flt (Cube.tFar c o d) (Cube.tNear c o d)
      || flt (Cube.tFar c o d) (F.fin 0)) = false := by
    rw [hnear, hfar]
    simp only [flt_fin_fin]
    rw [decide_eq_false (by linarith : ¬(r < q)),
      decide_eq_false (by linarith : ¬(r < (0 : K)))]
    rfl
  have hdot : 0 < Vec3.dot d d := by
    have n1 := mul_self_nonneg d.x
    have n2 := mul_self_nonneg d.y
    have n3 := mul_self_nonneg d.z
    unfold Vec3.dot
    rcases hcomp with h | h | h
    · have := mul_self_pos.mpr h; linarith
    · have := mul_self_pos.mpr h; linarith
    · have := mul_self_pos.mpr h; linarith
  rw [cube_hit_eq hguard]
  refine ⟨rfl, q, r, hnear, hqneg, hfar, hrpos.le, by simp [hnear], ?_, ?_, ?_⟩
  · rw [Intersect.new_point, hnear]
    dsimp only [FV3.add, FV3.smul, FV3.zip, Vec3.toF, rayAt, Vec3.add,
      Vec3.smul]
    simp only [fmul_fin_fin, fadd_fin_fin]
  · simp only [Vec3.dot, Vec3.sub, rayAt, Vec3.add, Vec3.smul]
    ring
  · exact mul_neg_of_neg_of_pos hqneg hdot

/-- Witness for claim C10: origin at the center of the size-2 cube, looking
down the `-z` axis. -/
theorem claim10_witness :
    strictlyInside wCube ⟨0, 0, 0⟩ ∧
    ((⟨0, 0, -1⟩ : Vec3 ℚ) ≠ ⟨0, 0, 0⟩) ∧
    (Cube.ray_intersect wCube ⟨0, 0, 0⟩ ⟨0, 0, -1⟩).is_intersecting = true :=
  ⟨by with_unfolding_all decide, by with_unfolding_all decide,
    (claim10_origin_inside_hits_behind wCube ⟨0, 0, 0⟩ ⟨0, 0, -1⟩
      (by with_unfolding_all decide) (by with_unfolding_all decide)).1⟩

/-- A value is recognized finite exactly when it is of the form `fin q`. -/
lemma isFinite_eq_true_iff (x : F K) :
    isFinite x = true ↔ ∃ q, x = F.fin q := by
  cases x <;> simp [isFinite]

/-- The cube scan leaves its state unchanged when no cube in the list both
hits and strictly beats the recorded nearest distance. -/
lemma foldl_renderStep_no_update (sq : F K → F K) (pf : F K → F K → F K)
    (eye dir : Vec3 K) (light : Light K) (skybox : Skybox K) :
    ∀ (L : List (Cube K)) (st : F K × Color K),
      (∀ c ∈ L, ¬((Cube.ray_intersect c eye dir).is_intersecting = true ∧
        flt (Cube.ray_intersect c eye dir).distance st.1 = true)) →
      L.foldl (renderStep sq pf eye dir light skybox) st = st := by
  intro L
  induction L with
  | nil => intro st _; rfl
  | cons a T ih =>
    intro st h
    have ha := h a (List.mem_cons_self a T)
    have hT : ∀ c ∈ T,
        ¬((Cube.ray_intersect c eye dir).is_intersecting = true ∧
          flt (Cube.ray_intersect c eye dir).distance st.1 = true) :=
      fun c hc => h c (List.mem_cons_of_mem a hc)
    have hstep : renderStep sq pf eye dir light skybox st a = st := by
      unfold renderStep
      rw [if_neg (by simpa [Bool.and_eq_true] using ha)]
    rw [List.foldl_cons, hstep]
    exact ih st hT

/-- The cube scan computes the shaded color of a hitting cube of minimal
distance, whenever some cube both hits and strictly beats the initial
nearest distance; the seed color is discarded. -/
lemma foldl_renderStep_min (sq : F K → F K) (pf : F K → F K → F K)
    (eye dir : Vec3 K) (light : Light K) (skybox : Skybox K) :
    ∀ (L : List (Cube K)) (n0 : F K) (c0 : Color K),
      (∃ c ∈ L, (Cube.ray_intersect c eye dir).is_intersecting = true ∧
        flt (Cube.ray_intersect c eye dir).distance n0 = true) →
      ∃ c ∈ L, (Cube.ray_intersect c eye dir).is_intersecting = true ∧
        flt (Cube.ray_intersect c eye dir).distance n0 = true ∧
        (L.foldl (renderStep sq pf eye dir light skybox) (n0, c0)).2 =
          castRay sq pf eye dir (Cube.ray_intersect c) light 0 skybox ∧
        ∀ c2 ∈ L, (Cube.ray_intersect c2 eye dir).is_intersecting = true →
          flt (Cube.ray_intersect c2 eye dir).distance
            (Cube.ray_intersect c eye dir).distance = false := by
  intro L
  induction L with
  | nil =>
    rintro n0 c0 ⟨c, hc, _⟩
    exact absurd hc (List.not_mem_nil c)
  | cons a T ih =>
    intro n0 c0 hex
    by_cases hstep : (Cube.ray_intersect a eye dir).is_intersecting = true ∧
        flt (Cube.ray_intersect a eye dir).distance n0 = true
    · have hstepeq : renderStep sq pf eye dir light skybox (n0, c0) a =
          ((Cube.ray_intersect a eye dir).distance,
            castRay sq pf eye dir (Cube.ray_intersect a) light 0 skybox) := by
        unfold renderStep
        rw [if_pos (by simpa [Bool.and_eq_true] using hstep)]
      by_cases hbeat : ∃ c ∈ T,
          (Cube.ray_intersect c eye dir).is_intersecting = true ∧
          flt (Cube.ray_intersect c eye dir).distance
            (Cube.ray_intersect a eye dir).distance = true
      · obtain ⟨c, hcT, hhit, hflt, hsnd, hmin⟩ :=
          ih (Cube.ray_intersect a eye dir).distance
            (castRay sq pf eye dir (Cube.ray_intersect a) light 0 skybox) hbeat
        refine ⟨c, List.mem_cons_of_mem a hcT, hhit,
          flt_trans hflt hstep.2, ?_, ?_⟩
        · rw [List.foldl_cons, hstepeq]
          exact hsnd
        · intro c2 hc2 hhit2
          rcases List.mem_cons.mp hc2 with rfl | hc2T
          · exact flt_asymm hflt
          · exact hmin c2 hc2T hhit2
      · have hnob : ∀ c ∈ T,
            ¬((Cube.ray_intersect c eye dir).is_intersecting = true ∧
              flt (Cube.ray_intersect c eye dir).distance
                (Cube.ray_intersect a eye dir).distance = true) := by
          intro c hc hcontra
          exact hbeat ⟨c, hc, hcontra⟩
        refine ⟨a, List.mem_cons_self a T, hstep.1, hstep.2, ?_, ?_⟩
        · rw [List.foldl_cons, hstepeq,
            foldl_renderStep_no_update sq pf eye dir light skybox T _ hnob]
        · intro c2 hc2 hhit2
          rcases List.mem_cons.mp hc2 with rfl | hc2T
          · exact flt_irrefl _
          · cases h2 : flt (Cube.ray_intersect c2 eye dir).distance
              (Cube.ray_intersect a eye dir).distance
            · rfl
            · exact absurd ⟨hhit2, h2⟩ (hnob c2 hc2T)
    · have hstepeq : renderStep sq pf eye dir light skybox (n0, c0) a =
          (n0, c0) := by
        unfold renderStep
        rw [if_neg (by simpa [Bool.and_eq_true] using hstep)]
      have hexT : ∃ c ∈ T,
          (Cube.ray_intersect c eye dir).is_intersecting = true ∧
          flt (Cube.ray_intersect c eye dir).distance n0 = true := by
        obtain ⟨c, hc, hprops⟩ := hex
        rcases List.mem_cons.mp hc with rfl | hcT
        · exact absurd hprops hstep
        · exact ⟨c, hcT, hprops⟩
      obtain ⟨c, hcT, hhit, hflt, hsnd, hmin⟩ := ih n0 c0 hexT
      refine ⟨c, List.mem_cons_of_mem a hcT, hhit, hflt, ?_, ?_⟩
      · rw [List.foldl_cons, hstepeq]
        exact hsnd
      · intro c2 hc2 hhit2
        rcases List.mem_cons.mp hc2 with rfl | hc2T
        · have hfa : flt (Cube.ray_intersect c2 eye dir).distance n0 = false := by
            cases h' : flt (Cube.ray_intersect c2 eye dir).distance n0
            · rfl
            · exact absurd ⟨hhit2, h'⟩ hstep
          cases h' : flt (Cube.ray_intersect c2 eye dir).distance
              (Cube.ray_intersect c eye dir).distance
          · rfl
          · have := flt_trans h' hflt
            rw [hfa] at this
            cases this
        · exact hmin c2 hc2T hhit2

/-- Claim C1: in the per-pixel loop, once any cube (with a finite, hence
comparable, hit distance) intersects the ray, the final pixel color is the
shaded color of a cube of minimal hit distance among the cubes; the result
does not depend on the plane argument at all, so the cube color replaces the
plane's shaded color (or the skybox color) even when the plane's hit is
nearer, and the plane's distance is never compared against cube distances. -/
theorem claim1_nearest_cube_overrides_plane (sq : F K → F K)
    (pf : F K → F K → F K) (plane : Plane K) (cubes : List (Cube K))
    (eye dir : Vec3 K) (light : Light K) (skybox : Skybox K)
    (hfin : ∀ c ∈ cubes,
      (Cube.ray_intersect c eye dir).is_intersecting = true →
      isFinite (Cube.ray_intersect c eye dir).distance = true)
    (hex : ∃ c ∈ cubes, (Cube.ray_intersect c eye dir).is_intersecting = true) :
    ∃ c ∈ cubes,
      (Cube.ray_intersect c eye dir).is_intersecting = true ∧
      ∃ q : K, (Cube.ray_intersect c eye dir).distance = F.fin q ∧
        (∀ c2 ∈ cubes,
          (Cube.ray_intersect c2 eye dir).is_intersecting = true →
          ∀ q2 : K, (Cube.ray_intersect c2 eye dir).distance = F.fin q2 →
            q ≤ q2) ∧
        renderPixel sq pf plane cubes eye dir light skybox =
          castRay sq pf eye dir (Cube.ray_intersect c) light 0 skybox := by
  obtain ⟨ca, hca, hhita⟩ := hex
  obtain ⟨qa, hqa⟩ :=
    (isFinite_eq_true_iff _).mp (hfin ca hca hhita)
  have hex2 : ∃ c ∈ cubes,
      (Cube.ray_intersect c eye dir).is_intersecting = true ∧
      flt (Cube.ray_intersect c eye dir).distance F.pinf = true := by
    exact ⟨ca, hca, hhita, by rw [hqa]; rfl⟩
  obtain ⟨c, hc, hhit, _, hsnd, hmin⟩ :=
    foldl_renderStep_min sq pf eye dir light skybox cubes F.pinf
      (if (Plane.ray_intersect plane eye dir).is_intersecting then
        castRay sq pf eye dir (Plane.ray_intersect plane) light 0 skybox
      else Skybox.sample skybox dir) hex2
  obtain ⟨q, hq⟩ := (isFinite_eq_true_iff _).mp (hfin c hc hhit)
  refine ⟨c, hc, hhit, q, hq, ?_, ?_⟩
  · intro c2 hc2 hhit2 q2 hq2
    have h2 := hmin c2 hc2 hhit2
    rw [hq, hq2] at h2
    simp only [flt_fin_fin, decide_eq_false_iff_not] at h2
    exact not_lt.mp h2
  · rw [renderPixel_eq]
    exact hsnd

/-- Transitivity of the IEEE non-strict order through a non-NaN middle
value. -/
lemma FLe_trans {x y z : F K} (hy : y ≠ F.nan) (h1 : FLe x y)
    (h2 : FLe y z) : FLe x z := by
  cases x <;> cases y <;> cases z <;> simp_all [FLe] <;> linarith

/-- Every value is below a Rust `max` containing it. -/
lemma FLe_fmax_left (x y : F K) : FLe x (fmax x y) := by
  cases x <;> cases y <;>
    simp [FLe, flt_irrefl, not_lt, le_max_left]

/-- Every value is below a Rust `max` containing it (right operand). -/
lemma FLe_fmax_right (x y : F K) : FLe y (fmax x y) := by
  cases x <;> cases y <;>
    simp [FLe, flt_irrefl, not_lt, le_max_right]

/-- A Rust `min` is below its left operand. -/
lemma FLe_fmin_left (x y : F K) : FLe (fmin x y) x := by
  cases x <;> cases y <;>
    simp [FLe, flt_irrefl, not_lt, min_le_left]

/-- A Rust `min` is below its right operand. -/
lemma FLe_fmin_right (x y : F K) : FLe (fmin x y) y := by
  cases x <;> cases y <;>
    simp [FLe, flt_irrefl, not_lt, min_le_right]

/-- A Rust `max` of two values below `w` is below `w`. -/
lemma fmax_FLe {x y w : F K} (h1 : FLe x w) (h2 : FLe y w) :
    FLe (fmax x y) w := by
  cases x <;> cases y <;> cases w <;>
    simp_all [FLe, flt_irrefl, lt_max_iff]

/-- A value below both operands is below their Rust `min`. -/
lemma FLe_fmin {w x y : F K} (h1 : FLe w x) (h2 : FLe w y) :
    FLe w (fmin x y) := by
  cases x <;> cases y <;> cases w <;>
    simp_all [FLe, flt_irrefl, min_lt_iff]

/-- `fmax` preserves the shape `-inf`-or-finite. -/
lemma fmax_lower_shape {x y : F K} (hx : x = F.ninf ∨ ∃ a, x = F.fin a)
    (hy : y = F.ninf ∨ ∃ a, y = F.fin a) :
    fmax x y = F.ninf ∨ ∃ a, fmax x y = F.fin a := by
  rcases hx with rfl | ⟨a, rfl⟩ <;> rcases hy with rfl | ⟨b, rfl⟩ <;> simp

/-- `fmin` preserves the shape `+inf`-or-finite. -/
lemma fmin_upper_shape {x y : F K} (hx : x = F.pinf ∨ ∃ b, x = F.fin b)
    (hy : y = F.pinf ∨ ∃ b, y = F.fin b) :
    fmin x y = F.pinf ∨ ∃ b, fmin x y = F.fin b := by
  rcases hx with rfl | ⟨a, rfl⟩ <;> rcases hy with rfl | ⟨b, rfl⟩ <;> simp

/-- A shape value `-inf`-or-finite is not NaN. -/
lemma lower_ne_nan {x : F K} (hx : x = F.ninf ∨ ∃ a, x = F.fin a) :
    x ≠ F.nan := by
  rcases hx with rfl | ⟨a, rfl⟩ <;> simp

/-- A shape value `+inf`-or-finite is not NaN. -/
lemma upper_ne_nan {x : F K} (hx : x = F.pinf ∨ ∃ b, x = F.fin b) :
    x ≠ F.nan := by
  rcases hx with rfl | ⟨a, rfl⟩ <;> simp

/-- If a Rust `max` of `-inf`-or-finite values is `-inf`, both operands
are. -/
lemma fmax_eq_ninf_parts {x y : F K} (hx : x = F.ninf ∨ ∃ a, x = F.fin a)
    (hy : y = F.ninf ∨ ∃ a, y = F.fin a) (h : fmax x y = F.ninf) :
    x = F.ninf ∧ y = F.ninf := by
  rcases hx with rfl | ⟨a, rfl⟩ <;> rcases hy with rfl | ⟨b, rfl⟩ <;>
    simp_all

/-- On finite values the IEEE non-strict order is the field order. -/
lemma FLe_fin_fin {a b : K} : FLe (F.fin a) (F.fin b) ↔ a ≤ b := by
  simp [FLe, not_lt]

/-- Everything compares below `+inf`. -/
lemma FLe_any_pinf (x : F K) : FLe x F.pinf := by simp [FLe]

/-- `-inf` compares below every finite value. -/
lemma FLe_ninf_fin (a : K) : FLe (F.ninf : F K) (F.fin a) := by simp [FLe]

/-- The slab guard, over abstract per-axis entry/exit times of the shapes
produced by the slab method, fails exactly when some ray parameter
`t >= 0` satisfies all three per-axis constraints. -/
lemma slab_guard_iff {l1 l2 l3 u1 u2 u3 : F K}
    (hl1 : l1 = F.ninf ∨ ∃ a, l1 = F.fin a)
    (hl2 : l2 = F.ninf ∨ ∃ a, l2 = F.fin a)
    (hl3 : l3 = F.ninf ∨ ∃ a, l3 = F.fin a)
    (hu1 : u1 = F.pinf ∨ ∃ b, u1 = F.fin b)
    (hu2 : u2 = F.pinf ∨ ∃ b, u2 = F.fin b)
    (hu3 : u3 = F.pinf ∨ ∃ b, u3 = F.fin b)
    (S1 S2 S3 : K → Prop)
    (hc1 : ∀ t, S1 t ↔ (FLe l1 (F.fin t) ∧ FLe (F.fin t) u1))
    (hc2 : ∀ t, S2 t ↔ (FLe l2 (F.fin t) ∧ FLe (F.fin t) u2))
    (hc3 : ∀ t, S3 t ↔ (FLe l3 (F.fin t) ∧ FLe (F.fin t) u3)) :
    ((flt (fmin (fmin u1 u2) u3) (fmax (fmax l1 l2) l3)
      || flt (fmin (fmin u1 u2) u3) (F.fin 0)) = false) ↔
    ∃ t : K, 0 ≤ t ∧ S1 t ∧ S2 t ∧ S3 t := by
  have hT := fmax_lower_shape (fmax_lower_shape hl1 hl2) hl3
  have hU := fmin_upper_shape (fmin_upper_shape hu1 hu2) hu3
  have hU1 : FLe (fmin (fmin u1 u2) u3) u1 :=
    FLe_trans (upper_ne_nan (fmin_upper_shape hu1 hu2))
      (FLe_fmin_left (fmin u1 u2) u3) (FLe_fmin_left u1 u2)
  have hU2 : FLe (fmin (fmin u1 u2) u3) u2 :=
    FLe_trans (upper_ne_nan (fmin_upper_shape hu1 hu2))
      (FLe_fmin_left (fmin u1 u2) u3) (FLe_fmin_right u1 u2)
  have hU3 : FLe (fmin (fmin u1 u2) u3) u3 := FLe_fmin_right (fmin u1 u2) u3
  have hL1 : FLe l1 (fmax (fmax l1 l2) l3) :=
    FLe_trans (lower_ne_nan (fmax_lower_shape hl1 hl2))
      (FLe_fmax_left l1 l2) (FLe_fmax_left (fmax l1 l2) l3)
  have hL2 : FLe l2 (fmax (fmax l1 l2) l3) :=
    FLe_trans (lower_ne_nan (fmax_lower_shape hl1 hl2))
      (FLe_fmax_right l1 l2) (FLe_fmax_left (fmax l1 l2) l3)
  have hL3 : FLe l3 (fmax (fmax l1 l2) l3) :=
    FLe_fmax_right (fmax l1 l2) l3
  constructor
  · intro hg
    have hg' := Bool.or_eq_false_iff.mp hg
    have hTU : FLe (fmax (fmax l1 l2) l3) (fmin (fmin u1 u2) u3) := hg'.1
    have h0U : FLe (F.fin 0) (fmin (fmin u1 u2) u3) := hg'.2
    rcases hT with hTn | ⟨A, hTA⟩
    · obtain ⟨h12, hl3n⟩ :=
        fmax_eq_ninf_parts (fmax_lower_shape hl1 hl2) hl3 hTn
      obtain ⟨hl1n, hl2n⟩ := fmax_eq_ninf_parts hl1 hl2 h12
      refine ⟨0, le_refl 0, ?_, ?_, ?_⟩
      · exact (hc1 0).mpr ⟨by rw [hl1n]; exact FLe_ninf_fin 0,
          FLe_trans (upper_ne_nan hU) h0U hU1⟩
      · exact (hc2 0).mpr ⟨by rw [hl2n]; exact FLe_ninf_fin 0,
          FLe_trans (upper_ne_nan hU) h0U hU2⟩
      · exact (hc3 0).mpr ⟨by rw [hl3n]; exact FLe_ninf_fin 0,
          FLe_trans (upper_ne_nan hU) h0U hU3⟩
    · have hTt : FLe (fmax (fmax l1 l2) l3) (F.fin (max A 0)) := by
        rw [hTA]; exact FLe_fin_fin.mpr (le_max_left A 0)
      have htU : FLe (F.fin (max A 0)) (fmin (fmin u1 u2) u3) := by
        rcases hU with hUp | ⟨B, hUB⟩
        · rw [hUp]; exact FLe_any_pinf _
        · rw [hUB]
          rw [hTA, hUB] at hTU
          rw [hUB] at h0U
          exact FLe_fin_fin.mpr
            (max_le (FLe_fin_fin.mp hTU) (FLe_fin_fin.mp h0U))
      refine ⟨max A 0, le_max_right A 0, ?_, ?_, ?_⟩
      · exact (hc1 (max A 0)).mpr
          ⟨FLe_trans (by rw [hTA]; simp) hL1 hTt,
            FLe_trans (upper_ne_nan hU) htU hU1⟩
      · exact (hc2 (max A 0)).mpr
          ⟨FLe_trans (by rw [hTA]; simp) hL2 hTt,
            FLe_trans (upper_ne_nan hU) htU hU2⟩
      · exact (hc3 (max A 0)).mpr
          ⟨FLe_trans (by rw [hTA]; simp) hL3 hTt,
            FLe_trans (upper_ne_nan hU) htU hU3⟩
  · rintro ⟨t, ht0, hS1, hS2, hS3⟩
    obtain ⟨ha1, hb1⟩ := (hc1 t).mp hS1
    obtain ⟨ha2, hb2⟩ := (hc2 t).mp hS2
    obtain ⟨ha3, hb3⟩ := (hc3 t).mp hS3
    have hTt : FLe (fmax (fmax l1 l2) l3) (F.fin t) :=
      fmax_FLe (fmax_FLe ha1 ha2) ha3
    have htU : FLe (F.fin t) (fmin (fmin u1 u2) u3) :=
      FLe_fmin (FLe_fmin hb1 hb2) hb3
    rw [Bool.or_eq_false_iff]
    exact ⟨FLe_trans (by simp) hTt htU,
      FLe_trans (by simp) (FLe_fin_fin.mpr ht0) htU⟩

/-- Under the boundary-avoidance side condition, a per-axis exit time is
`+inf`, `-inf`, or finite (never NaN). -/
lemma axis2_shape {mn mx o : K} (d : K) (hmn : mn < mx)
    (hb : d = 0 → o ≠ mn ∧ o ≠ mx) :
    axis2 mn mx o d = F.pinf ∨ axis2 mn mx o d = F.ninf ∨
      ∃ b, axis2 mn mx o d = F.fin b := by
  by_cases hd : d = 0
  · subst hd
    obtain ⟨hne1, hne2⟩ := hb rfl
    rcases lt_trichotomy o mn with h | h | h
    · exact Or.inl (axis_zero_below h (h.trans hmn)).2
    · exact absurd h hne1
    · rcases lt_trichotomy o mx with h2 | h2 | h2
      · exact Or.inl (axis_zero_inside h h2).2
      · exact absurd h2 hne2
      · exact Or.inr (Or.inl (axis_zero_above h h2).2)
  · exact Or.inr (Or.inr ⟨_, (axis_nonzero hd mn mx o).2⟩)

/-- A three-fold Rust `min` of non-NaN values, not all `+inf`, is strictly
below `+inf`. -/
lemma flt_fmin3_pinf {x y z : F K} (hx : x ≠ F.nan) (hy : y ≠ F.nan)
    (hz : z ≠ F.nan) (h : x ≠ F.pinf ∨ y ≠ F.pinf ∨ z ≠ F.pinf) :
    flt (fmin (fmin x y) z) F.pinf = true := by
  cases x <;> cases y <;> cases z <;> simp_all

/-- The cube intersector reports a hit exactly when the slab guard does not
fire. -/
lemma cube_hit_iff (c : Cube K) (o d : Vec3 K) :
    (Cube.ray_intersect c o d).is_intersecting = true ↔
      (flt (Cube.tFar c o d) (Cube.tNear c o d)
        || flt (Cube.tFar c o d) (F.fin 0)) = false := by
  by_cases hg : (flt (Cube.tFar c o d) (Cube.tNear c o d)
      || flt (Cube.tFar c o d) (F.fin 0)) = true
  · rw [(cube_miss_iff c o d).mpr hg, hg]
    simp
  · have hg' : (flt (Cube.tFar c o d) (Cube.tNear c o d)
        || flt (Cube.tFar c o d) (F.fin 0)) = false := by
      cases h' : (flt (Cube.tFar c o d) (Cube.tNear c o d)
          || flt (Cube.tFar c o d) (F.fin 0))
      · rfl
      · exact absurd h' hg
    rw [cube_hit_eq hg', hg']
    simp

/-- Per-axis shapes and ray-parameter characterization of the slab entry and
exit times, for an axis that is either nonzero-direction or zero-direction
with origin strictly inside the slab. -/
lemma axis_char {mn mx o : K} (d : K) (hmn : mn ≤ mx)
    (hb : d = 0 → mn < o ∧ o < mx) :
    ((axis1 mn mx o d = F.ninf ∨ ∃ a, axis1 mn mx o d = F.fin a) ∧
     (axis2 mn mx o d = F.pinf ∨ ∃ b, axis2 mn mx o d = F.fin b)) ∧
    ∀ t : K, (mn ≤ o + t * d ∧ o + t * d ≤ mx) ↔
      (FLe (axis1 mn mx o d) (F.fin t) ∧ FLe (F.fin t) (axis2 mn mx o d)) := by
  by_cases hd : d = 0
  · subst hd
    obtain ⟨h1, h2⟩ := hb rfl
    obtain ⟨e1, e2⟩ := axis_zero_inside h1 h2
    rw [e1, e2]
    refine ⟨⟨Or.inl rfl, Or.inl rfl⟩, ?_⟩
    intro t
    simp [FLe, h1.le, h2.le]
  · obtain ⟨e1, e2⟩ := axis_nonzero hd mn mx o
    rw [e1, e2]
    refine ⟨⟨Or.inr ⟨_, rfl⟩, Or.inr ⟨_, rfl⟩⟩, ?_⟩
    intro t
    rw [axis_nonzero_char hd o hmn t]
    simp [FLe_fin_fin]

/-- Counterexample to claim C6 as stated: the ray from `(1,0,5)` toward
`(0,0,-1)` (zero `x` and `y` components) grazes the `x = 1` face of the
size-2 cube at the origin: it truly meets the closed box in front of the
origin (at `t = 4`), but the NaN arising from `0 * inf` in the slab method
makes the code report a miss. -/
theorem claim6_counterexample :
    ((⟨0, 0, -1⟩ : Vec3 ℚ).x = 0) ∧
    (0 : ℚ) ≤ 4 ∧ inBox wCube (rayAt ⟨1, 0, 5⟩ ⟨0, 0, -1⟩ 4) ∧
    (Cube.ray_intersect wCube ⟨1, 0, 5⟩ ⟨0, 0, -1⟩).is_intersecting = false := by
  with_unfolding_all decide

/-- Claim C6 as amended: for a positive-size cube and a ray whose direction
has a zero component (but is not the zero vector), provided the origin does
not lie exactly on a slab boundary of a zero-direction axis (there the
`0 * inf` NaN makes the code miss grazing rays), the division by zero
produces infinities that flow through the min/max reduction and the hit
flag is true exactly when some `t >= 0` places the ray point inside the
closed box. -/
theorem claim6_amended_zero_component_direction (c : Cube K) (o d : Vec3 K)
    (hs : 0 < c.size)
    (_hz : d.x = 0 ∨ d.y = 0 ∨ d.z = 0)
    (hd : d ≠ ⟨0, 0, 0⟩)
    (hbx : d.x = 0 → o.x ≠ (Cube.boxMin c).x ∧ o.x ≠ (Cube.boxMax c).x)
    (hby : d.y = 0 → o.y ≠ (Cube.boxMin c).y ∧ o.y ≠ (Cube.boxMax c).y)
    (hbz : d.z = 0 → o.z ≠ (Cube.boxMin c).z ∧ o.z ≠ (Cube.boxMax c).z) :
    ((Cube.ray_intersect c o d).is_intersecting = true ↔
      ∃ t : K, 0 ≤ t ∧ inBox c (rayAt o d t)) := by
  have hmnx : (Cube.boxMin c).x < (Cube.boxMax c).x := by
    dsimp only [Cube.boxMin, Cube.boxMax, Vec3.sub, Vec3.add]
    linarith
  have hmny : (Cube.boxMin c).y < (Cube.boxMax c).y := by
    dsimp only [Cube.boxMin, Cube.boxMax, Vec3.sub, Vec3.add]
    linarith
  have hmnz : (Cube.boxMin c).z < (Cube.boxMax c).z := by
    dsimp only [Cube.boxMin, Cube.boxMax, Vec3.sub, Vec3.add]
    linarith
  have hnear : Cube.tNear c o d =
      fmax (fmax (axis1 (Cube.boxMin c).x (Cube.boxMax c).x o.x d.x)
          (axis1 (Cube.boxMin c).y (Cube.boxMax c).y o.y d.y))
        (axis1 (Cube.boxMin c).z (Cube.boxMax c).z o.z d.z) := by
    unfold Cube.tNear
    rw [slabT1_eq]
    rfl
  have hfar : Cube.tFar c o d =
      fmin (fmin (axis2 (Cube.boxMin c).x (Cube.boxMax c).x o.x d.x)
          (axis2 (Cube.boxMin c).y (Cube.boxMax c).y o.y d.y))
        (axis2 (Cube.boxMin c).z (Cube.boxMax c).z o.z d.z) := by
    unfold Cube.tFar
    rw [slabT2_eq]
    rfl
  have s2x := axis2_shape d.x hmnx hbx
  have s2y := axis2_shape d.y hmny hby
  have s2z := axis2_shape d.z hmnz hbz
  have hx_ne : axis2 (Cube.boxMin c).x (Cube.boxMax c).x o.x d.x ≠ F.nan := by
    rcases s2x with h | h | ⟨b, h⟩ <;> rw [h] <;> simp
  have hy_ne : axis2 (Cube.boxMin c).y (Cube.boxMax c).y o.y d.y ≠ F.nan := by
    rcases s2y with h | h | ⟨b, h⟩ <;> rw [h] <;> simp
  have hz_ne : axis2 (Cube.boxMin c).z (Cube.boxMax c).z o.z d.z ≠ F.nan := by
    rcases s2z with h | h | ⟨b, h⟩ <;> rw [h] <;> simp
  by_cases hox : d.x = 0 ∧
      (o.x < (Cube.boxMin c).x ∨ (Cube.boxMax c).x < o.x)
  · obtain ⟨hdx0, hout⟩ := hox
    have hnp : axis2 (Cube.boxMin c).x (Cube.boxMax c).x o.x d.x ≠ F.pinf ∨
        axis2 (Cube.boxMin c).y (Cube.boxMax c).y o.y d.y ≠ F.pinf ∨
        axis2 (Cube.boxMin c).z (Cube.boxMax c).z o.z d.z ≠ F.pinf := by
      rcases vec_ne_zero_component hd with h | h | h
      · exact absurd hdx0 h
      · exact Or.inr (Or.inl (by
          rw [(axis_nonzero h (Cube.boxMin c).y (Cube.boxMax c).y o.y).2]
          simp))
      · exact Or.inr (Or.inr (by
          rw [(axis_nonzero h (Cube.boxMin c).z (Cube.boxMax c).z o.z).2]
          simp))
    constructor
    · intro hhit
      exfalso
      have hguard : (flt (Cube.tFar c o d) (Cube.tNear c o d)
          || flt (Cube.tFar c o d) (F.fin 0)) = true := by
        rcases hout with hbelow | habove
        · have e := axis_zero_below hbelow (hbelow.trans hmnx)
          have hnearp : Cube.tNear c o d = F.pinf := by
            rw [hnear, hdx0, e.1, fmax_pinf_left, fmax_pinf_left]
          have hflt : flt (Cube.tFar c o d) F.pinf = true := by
            rw [hfar]
            exact flt_fmin3_pinf hx_ne hy_ne hz_ne hnp
          rw [hnearp, Bool.or_eq_true]
          exact Or.inl hflt
        · have e := axis_zero_above (hmnx.trans habove) habove
          have hfarn : Cube.tFar c o d = F.ninf := by
            rw [hfar, hdx0, e.2, fmin_ninf_left, fmin_ninf_left]
          rw [hfarn, Bool.or_eq_true]
          exact Or.inr (by simp)
      rw [(cube_miss_iff c o d).mpr hguard] at hhit
      cases hhit
    · rintro ⟨t, _, hbox⟩
      exfalso
      obtain ⟨b1, b2, _⟩ := hbox
      have hxeq : (rayAt o d t).x = o.x := by
        dsimp only [rayAt, Vec3.add, Vec3.smul]
        rw [hdx0]
        ring
      rw [hxeq] at b1 b2
      rcases hout with hbelow | habove
      · exact absurd b1 (not_le.mpr hbelow)
      · exact absurd b2 (not_le.mpr habove)
  by_cases hoy : d.y = 0 ∧
      (o.y < (Cube.boxMin c).y ∨ (Cube.boxMax c).y < o.y)
  · obtain ⟨hdy0, hout⟩ := hoy
    have hnp : axis2 (Cube.boxMin c).x (Cube.boxMax c).x o.x d.x ≠ F.pinf ∨
        axis2 (Cube.boxMin c).y (Cube.boxMax c).y o.y d.y ≠ F.pinf ∨
        axis2 (Cube.boxMin c).z (Cube.boxMax c).z o.z d.z ≠ F.pinf := by
      rcases vec_ne_zero_component hd with h | h | h
      · exact Or.inl (by
          rw [(axis_nonzero h (Cube.boxMin c).x (Cube.boxMax c).x o.x).2]
          simp)
      · exact absurd hdy0 h
      · exact Or.inr (Or.inr (by
          rw [(axis_nonzero h (Cube.boxMin c).z (Cube.boxMax c).z o.z).2]
          simp))
    constructor
    · intro hhit
      exfalso
      have hguard : (flt (Cube.tFar c o d) (Cube.tNear c o d)
          || flt (Cube.tFar c o d) (F.fin 0)) = true := by
        rcases hout with hbelow | habove
        · have e := axis_zero_below hbelow (hbelow.trans hmny)
          have hnearp : Cube.tNear c o d = F.pinf := by
            rw [hnear, hdy0, e.1, fmax_x_pinf, fmax_pinf_left]
          have hflt : flt (Cube.tFar c o d) F.pinf = true := by
            rw [hfar]
            exact flt_fmin3_pinf hx_ne hy_ne hz_ne hnp
          rw [hnearp, Bool.or_eq_true]
          exact Or.inl hflt
        · have e := axis_zero_above (hmny.trans habove) habove
          have hfarn : Cube.tFar c o d = F.ninf := by
            rw [hfar, hdy0, e.2, fmin_ninf_right, fmin_ninf_left]
          rw [hfarn, Bool.or_eq_true]
          exact Or.inr (by simp)
      rw [(cube_miss_iff c o d).mpr hguard] at hhit
      cases hhit
    · rintro ⟨t, _, hbox⟩
      exfalso
      obtain ⟨_, _, b1, b2, _⟩ := hbox
      have hyeq : (rayAt o d t).y = o.y := by
        dsimp only [rayAt, Vec3.add, Vec3.smul]
        rw [hdy0]
        ring
      rw [hyeq] at b1 b2
      rcases hout with hbelow | habove
      · exact absurd b1 (not_le.mpr hbelow)
      · exact absurd b2 (not_le.mpr habove)
  by_cases hoz : d.z = 0 ∧
      (o.z < (Cube.boxMin c).z ∨ (Cube.boxMax c).z < o.z)
  · obtain ⟨hdz0, hout⟩ := hoz
    have hnp : axis2 (Cube.boxMin c).x (Cube.boxMax c).x o.x d.x ≠ F.pinf ∨
        axis2 (Cube.boxMin c).y (Cube.boxMax c).y o.y d.y ≠ F.pinf ∨
        axis2 (Cube.boxMin c).z (Cube.boxMax c).z o.z d.z ≠ F.pinf := by
      rcases vec_ne_zero_component hd with h | h | h
      · exact Or.inl (by
          rw [(axis_nonzero h (Cube.boxMin c).x (Cube.boxMax c).x o.x).2]
          simp)
      · exact Or.inr (Or.inl (by
          rw [(axis_nonzero h (Cube.boxMin c).y (Cube.boxMax c).y o.y).2]
          simp))
      · exact absurd hdz0 h
    constructor
    · intro hhit
      exfalso
      have hguard : (flt (Cube.tFar c o d) (Cube.tNear c o d)
          || flt (Cube.tFar c o d) (F.fin 0)) = true := by
        rcases hout with hbelow | habove
        · have e := axis_zero_below hbelow (hbelow.trans hmnz)
          have hnearp : Cube.tNear c o d = F.pinf := by
            rw [hnear, hdz0, e.1, fmax_x_pinf]
          have hflt : flt (Cube.tFar c o d) F.pinf = true := by
            rw [hfar]
            exact flt_fmin3_pinf hx_ne hy_ne hz_ne hnp
          rw [hnearp, Bool.or_eq_true]
          exact Or.inl hflt
        · have e := axis_zero_above (hmnz.trans habove) habove
          have hfarn : Cube.tFar c o d = F.ninf := by
            rw [hfar, hdz0, e.2, fmin_ninf_right]
          rw [hfarn, Bool.or_eq_true]
          exact Or.inr (by simp)
      rw [(cube_miss_iff c o d).mpr hguard] at hhit
      cases hhit
    · rintro ⟨t, _, hbox⟩
      exfalso
      obtain ⟨_, _, _, _, b1, b2⟩ := hbox
      have hzeq : (rayAt o d t).z = o.z := by
        dsimp only [rayAt, Vec3.add, Vec3.smul]
        rw [hdz0]
        ring
      rw [hzeq] at b1 b2
      rcases hout with hbelow | habove
      · exact absurd b1 (not_le.mpr hbelow)
      · exact absurd b2 (not_le.mpr habove)
  have hbx' : d.x = 0 → (Cube.boxMin c).x < o.x ∧ o.x < (Cube.boxMax c).x := by
    intro h0
    have hne := hbx h0
    have hnout : ¬(o.x < (Cube.boxMin c).x ∨ (Cube.boxMax c).x < o.x) :=
      fun hcon => hox ⟨h0, hcon⟩
    push_neg at hnout
    exact ⟨lt_of_le_of_ne hnout.1 (Ne.symm hne.1),
      lt_of_le_of_ne hnout.2 hne.2⟩
  have hby' : d.y = 0 → (Cube.boxMin c).y < o.y ∧ o.y < (Cube.boxMax c).y := by
    intro h0
    have hne := hby h0
    have hnout : ¬(o.y < (Cube.boxMin c).y ∨ (Cube.boxMax c).y < o.y) :=
      fun hcon => hoy ⟨h0, hcon⟩
    push_neg at hnout
    exact ⟨lt_of_le_of_ne hnout.1 (Ne.symm hne.1),
      lt_of_le_of_ne hnout.2 hne.2⟩
  have hbz' : d.z = 0 → (Cube.boxMin c).z < o.z ∧ o.z < (Cube.boxMax c).z := by
    intro h0
    have hne := hbz h0
    have hnout : ¬(o.z < (Cube.boxMin c).z ∨ (Cube.boxMax c).z < o.z) :=
      fun hcon => hoz ⟨h0, hcon⟩
    push_neg at hnout
    exact ⟨lt_of_le_of_ne hnout.1 (Ne.symm hne.1),
      lt_of_le_of_ne hnout.2 hne.2⟩
  have hch1 := axis_char d.x hmnx.le hbx'
  have hch2 := axis_char d.y hmny.le hby'
  have hch3 := axis_char d.z hmnz.le hbz'
  rw [cube_hit_iff, hnear, hfar]
  rw [slab_guard_iff hch1.1.1 hch2.1.1 hch3.1.1 hch1.1.2 hch2.1.2 hch3.1.2
    _ _ _ hch1.2 hch2.2 hch3.2]
  apply exists_congr
  intro t
  dsimp only [inBox, rayAt, Vec3.add, Vec3.smul]
  constructor
  · rintro ⟨h0, ⟨a1, a2⟩, ⟨a3, a4⟩, a5, a6⟩
    exact ⟨h0, a1, a2, a3, a4, a5, a6⟩
  · rintro ⟨h0, a1, a2, a3, a4, a5, a6⟩
    exact ⟨h0, ⟨a1, a2⟩, ⟨a3, a4⟩, a5, a6⟩

/-- Witness for the amended claim C6: the ray from `(0,0,5)` toward
`(0,0,-1)` against the size-2 cube at the origin. -/
theorem claim6_witness :
    (0 : ℚ) < wCube.size ∧
    ((⟨0, 0, -1⟩ : Vec3 ℚ).x = 0 ∨ (⟨0, 0, -1⟩ : Vec3 ℚ).y = 0 ∨
      (⟨0, 0, -1⟩ : Vec3 ℚ).z = 0) ∧
    ((⟨0, 0, -1⟩ : Vec3 ℚ) ≠ ⟨0, 0, 0⟩) ∧
    ((Cube.ray_intersect wCube ⟨0, 0, 5⟩ ⟨0, 0, -1⟩).is_intersecting = true ↔
      ∃ t : ℚ, 0 ≤ t ∧ inBox wCube (rayAt ⟨0, 0, 5⟩ ⟨0, 0, -1⟩ t)) :=
  ⟨by with_unfolding_all decide, by with_unfolding_all decide,
    by with_unfolding_all decide,
    claim6_amended_zero_component_direction wCube ⟨0, 0, 5⟩ ⟨0, 0, -1⟩
      (by with_unfolding_all decide) (by with_unfolding_all decide)
      (by with_unfolding_all decide)
      (fun _ => by with_unfolding_all decide)
      (fun _ => by with_unfolding_all decide)
      (fun h => absurd h (by with_unfolding_all decide))⟩

/-- Witness for claim C1: a two-cube scene in which the second cube hits the
ray from `(0,0,5)` toward `(0,0,-1)` and the first misses. -/
theorem claim1_witness :
    (∀ c ∈ [wCubeFar, wCube],
      (Cube.ray_intersect c ⟨0, 0, 5⟩ ⟨0, 0, -1⟩).is_intersecting = true →
      isFinite (Cube.ray_intersect c ⟨0, 0, 5⟩ ⟨0, 0, -1⟩).distance = true) ∧
    (∃ c ∈ [wCubeFar, wCube],
      (Cube.ray_intersect c ⟨0, 0, 5⟩ ⟨0, 0, -1⟩).is_intersecting = true) ∧
    (∃ c ∈ [wCubeFar, wCube],
      (Cube.ray_intersect c ⟨0, 0, 5⟩ ⟨0, 0, -1⟩).is_intersecting = true ∧
      ∃ q : ℚ,
        (Cube.ray_intersect c ⟨0, 0, 5⟩ ⟨0, 0, -1⟩).distance = F.fin q ∧
        (∀ c2 ∈ [wCubeFar, wCube],
          (Cube.ray_intersect c2 ⟨0, 0, 5⟩ ⟨0, 0, -1⟩).is_intersecting = true →
          ∀ q2 : ℚ,
            (Cube.ray_intersect c2 ⟨0, 0, 5⟩ ⟨0, 0, -1⟩).distance = F.fin q2 →
              q ≤ q2) ∧
        renderPixel wsq wpf wPlane [wCubeFar, wCube] ⟨0, 0, 5⟩ ⟨0, 0, -1⟩
            wLight wSkybox =
          castRay wsq wpf ⟨0, 0, 5⟩ ⟨0, 0, -1⟩ (Cube.ray_intersect c) wLight 0
            wSkybox) :=
  ⟨by with_unfolding_all decide, by with_unfolding_all decide,
    claim1_nearest_cube_overrides_plane wsq wpf wPlane [wCubeFar, wCube]
      ⟨0, 0, 5⟩ ⟨0, 0, -1⟩ wLight wSkybox (by with_unfolding_all decide)
      (by with_unfolding_all decide)⟩

end RT
